import Mathlib

/-!
Verification development for the poly-websockets market-data client.

The development shallowly embeds the core of the library:

* the order-book cache (src/modules/OrderBookCache.ts),
* the per-group socket price-derivation algorithm (src/modules/GroupSocket.ts),
* the connection-group registry (src/modules/GroupRegistry.ts),
* the single-connection subscription manager with its three pending/subscribe
  sets (src/WSSubscriptionManager.ts, single-connection variant), and
* the event-dispatch filters of both subscription-manager variants.

Numeric model.  A price string denotes an exact decimal rational, represented
as an integer numerator scaled by a power of ten (structure Dec below).
JavaScript numbers are IEEE-754 binary64 doubles: parseFloat rounds the
decimal to the nearest double, and every arithmetic operation rounds its
exact result to the nearest double again (round-to-nearest, ties-to-even).  A
finite double is itself an exact dyadic rational, represented below as a
significand/exponent pair (structure F64), and the rounding functions are
exact integer arithmetic, so every definition is executable.  Bridge lemmas
relate the Dec and F64 operations to rational-number arithmetic for the
semantic statements.
-/

/-- Exact decimal value: the rational num / 10 ^ exp.  This is the exact
value written by a plain decimal price string; the double that JavaScript
parseFloat denotes on the string is obtained by rounding it (F64.ofDec
below). -/
structure Dec where
  num : Int
  exp : Nat
deriving DecidableEq, Repr

namespace Dec

/-- Rational value of a decimal. -/
def toRat (a : Dec) : ℚ := (a.num : ℚ) / (10 : ℚ) ^ a.exp

/-- Exact difference of two decimals (cross scaling). -/
def sub (a b : Dec) : Dec :=
  ⟨a.num * (10 : Int) ^ b.exp - b.num * (10 : Int) ^ a.exp, a.exp + b.exp⟩

/-- Exact sum of two decimals (cross scaling). -/
def add (a b : Dec) : Dec :=
  ⟨a.num * (10 : Int) ^ b.exp + b.num * (10 : Int) ^ a.exp, a.exp + b.exp⟩

/-- Exact halving: multiply the numerator by five and shift one decimal place. -/
def half (a : Dec) : Dec := ⟨a.num * 5, a.exp + 1⟩

/-- Strict numeric comparison of two decimals, by cross multiplication. -/
def blt (a b : Dec) : Bool :=
  decide (a.num * (10 : Int) ^ b.exp < b.num * (10 : Int) ^ a.exp)

/-- Non-strict numeric comparison of two decimals, by cross multiplication. -/
def ble (a b : Dec) : Bool :=
  decide (a.num * (10 : Int) ^ b.exp ≤ b.num * (10 : Int) ^ a.exp)

theorem pow_ten_pos (e : Nat) : (0 : ℚ) < (10 : ℚ) ^ e := by positivity

theorem toRat_sub (a b : Dec) : (a.sub b).toRat = a.toRat - b.toRat := by
  unfold toRat sub
  rw [div_sub_div _ _ (ne_of_gt (pow_ten_pos a.exp)) (ne_of_gt (pow_ten_pos b.exp))]
  push_cast
  rw [pow_add]
  ring_nf

theorem toRat_add (a b : Dec) : (a.add b).toRat = a.toRat + b.toRat := by
  unfold toRat add
  rw [div_add_div _ _ (ne_of_gt (pow_ten_pos a.exp)) (ne_of_gt (pow_ten_pos b.exp))]
  push_cast
  rw [pow_add]
  ring_nf

theorem blt_iff (a b : Dec) : a.blt b = true ↔ a.toRat < b.toRat := by
  unfold blt toRat
  rw [decide_eq_true_iff]
  rw [div_lt_div_iff (pow_ten_pos a.exp) (pow_ten_pos b.exp)]
  constructor
  · intro h
    exact_mod_cast h
  · intro h
    exact_mod_cast h

theorem ble_iff (a b : Dec) : a.ble b = true ↔ a.toRat ≤ b.toRat := by
  unfold ble toRat
  rw [decide_eq_true_iff]
  rw [div_le_div_iff (pow_ten_pos a.exp) (pow_ten_pos b.exp)]
  constructor
  · intro h
    exact_mod_cast h
  · intro h
    exact_mod_cast h

theorem ble_total (a b : Dec) : a.ble b = true ∨ b.ble a = true := by
  rw [ble_iff, ble_iff]
  exact le_total a.toRat b.toRat

theorem ble_trans {a b c : Dec} (h1 : a.ble b = true) (h2 : b.ble c = true) :
    a.ble c = true := by
  rw [ble_iff] at h1 h2 ⊢
  exact le_trans h1 h2

theorem not_blt_of_ble {a b : Dec} (h : a.ble b = true) : b.blt a = false := by
  rw [ble_iff] at h
  rw [← Bool.not_eq_true, blt_iff]
  exact not_lt.mpr h

/-- Round half away from zero for the fraction n / d, with d positive.  This is
the rounding mode of JavaScript Number.prototype.toFixed. -/
def roundAway (n d : Int) : Int :=
  if 0 ≤ n then (2 * n + d) / (2 * d) else -((2 * (-n) + d) / (2 * d))

end Dec

/-- Numeric value of a run of ASCII digits. -/
def digitsVal (ds : List Char) : Nat :=
  ds.foldl (fun a c => a * 10 + (c.toNat - 48)) 0

/-- Model of JavaScript parseFloat restricted to the plain decimal forms in
which the upstream feed transmits prices: an optional sign, then digits, an
optional decimal point and further digits.  Any string with no leading digits
parses to none, standing for NaN. -/
def parseDec (s : String) : Option Dec :=
  let cs0 := s.toList
  let neg := cs0.head? == some '-'
  let cs := if cs0.head? == some '-' || cs0.head? == some '+' then cs0.tail else cs0
  let ds := cs.takeWhile Char.isDigit
  let rest := cs.dropWhile Char.isDigit
  let fs := if rest.head? == some '.' then rest.tail.takeWhile Char.isDigit else []
  if ds.isEmpty && fs.isEmpty then none
  else
    let mag : Int := ((digitsVal ds) * 10 ^ fs.length + digitsVal fs : Nat)
    some ⟨if neg then -mag else mag, fs.length⟩

/-- Drop trailing zero digits from a fraction-digit list. -/
def trimFracDigits (s : List Char) : List Char :=
  ((s.reverse).dropWhile (fun c => c == '0')).reverse

/-- Pad a fraction-digit list with leading zeros up to e digits. -/
def padFrac (s : List Char) (e : Nat) : List Char :=
  List.replicate (e - s.length) '0' ++ s

/-- Canonical decimal rendering of a decimal value with trailing zeros trimmed:
the string produced by JavaScript Number.prototype.toString for such a value. -/
def renderDec (a : Dec) : String :=
  let m := a.num.natAbs
  let ip := m / 10 ^ a.exp
  let fp := m % 10 ^ a.exp
  let frac := trimFracDigits (padFrac (Nat.repr fp).toList a.exp)
  let core := if frac.isEmpty then Nat.repr ip else Nat.repr ip ++ "." ++ String.mk frac
  if a.num < 0 then "-" ++ core else core

/-- Model of parseFloat(s).toString(): numeric parse round-trip that strips
trailing zeros; a non-numeric string yields the string NaN. -/
def normalizeNumStr (s : String) : String :=
  match parseDec s with
  | some d => renderDec d
  | none => "NaN"

/-! IEEE-754 binary64 layer.  JavaScript numbers are binary64 doubles:
parseFloat rounds the decimal value of the string to the nearest double, and
each arithmetic operation rounds its exact result to the nearest double again
(round-to-nearest, ties-to-even, 53-bit significand).  A finite double is an
exact dyadic rational m * 2 ^ e, represented by the pair below; the rounding
functions are exact integer arithmetic, so every definition is executable.
The model covers the normal range, where all of the feed's price magnitudes
live (no subnormals, infinities or overflow). -/

/-- A finite binary64 value: the exact dyadic rational m * 2 ^ e.  Values
built by the rounding functions are normalized, with 2 ^ 52 <= abs m < 2 ^ 53
or m = 0. -/
structure F64 where
  m : Int
  e : Int
deriving DecidableEq, Repr

namespace F64

/-- Exact rational value of a double. -/
def toRat (x : F64) : ℚ := (x.m : ℚ) * (2 : ℚ) ^ x.e

/-- Bit length of a natural number by fuel-bounded halving; exact for
n < 2 ^ 256, far beyond every quantity arising in the model. -/
def bitlenAux : Nat → Nat → Nat
  | 0, _ => 0
  | fuel + 1, n => if n = 0 then 0 else bitlenAux fuel (n / 2) + 1

/-- Bit length of a natural number. -/
def bitlen (n : Nat) : Nat := bitlenAux 256 n

/-- Round the value m + r / den (with 0 <= r < den) to the nearest integer,
ties to even. -/
def rne (m r den : Nat) : Nat :=
  if den < 2 * r then m + 1
  else if 2 * r < den then m
  else if m % 2 = 0 then m else m + 1

/-- Renormalize a rounded significand: a carry out of 53 bits shifts the
exponent up by one. -/
def fixCarry (p : Nat × Int) : Nat × Int :=
  if p.1 = 2 ^ 53 then (2 ^ 52, p.2 + 1) else p

/-- Nearest binary64 to the positive rational p / q (p, q > 0), as a
normalized significand/exponent pair: scale p / q into [2 ^ 52, 2 ^ 54) using
the bit lengths, correct the scaling if the integer part overshoots 2 ^ 53,
and round to nearest with ties to even. -/
def roundPosRat (p q : Nat) : Nat × Int :=
  let shift : Int := 53 - ((bitlen p : Int) - (bitlen q : Int))
  let scaled := if 0 ≤ shift then p * 2 ^ shift.toNat else p
  let den := if 0 ≤ shift then q else q * 2 ^ (-shift).toNat
  if scaled / den < 2 ^ 53 then
    fixCarry (rne (scaled / den) (scaled % den) den, -shift)
  else
    let shift2 := shift - 1
    let scaled2 := if 0 ≤ shift2 then p * 2 ^ shift2.toNat else p
    let den2 := if 0 ≤ shift2 then q else q * 2 ^ (-shift2).toNat
    fixCarry (rne (scaled2 / den2) (scaled2 % den2) den2, -shift2)

/-- Nearest binary64 to the dyadic rational n * 2 ^ e. -/
def ofDyadic (n : Int) (e : Int) : F64 :=
  if n = 0 then ⟨0, 0⟩
  else
    let p := if 0 ≤ e then n.natAbs * 2 ^ e.toNat else n.natAbs
    let q := if 0 ≤ e then 1 else 2 ^ (-e).toNat
    let me := roundPosRat p q
    ⟨if n < 0 then -(me.1 : Int) else (me.1 : Int), me.2⟩

/-- Nearest binary64 to an exact decimal value: the double that JavaScript
parseFloat denotes on the decimal string. -/
def ofDec (d : Dec) : F64 :=
  if d.num = 0 then ⟨0, 0⟩
  else
    let me := roundPosRat d.num.natAbs (10 ^ d.exp)
    ⟨if d.num < 0 then -(me.1 : Int) else (me.1 : Int), me.2⟩

/-- Binary64 subtraction: the exact difference, rounded to the nearest
double. -/
def sub (x y : F64) : F64 :=
  let e0 := min x.e y.e
  ofDyadic (x.m * 2 ^ (x.e - e0).toNat - y.m * 2 ^ (y.e - e0).toNat) e0

/-- Binary64 addition: the exact sum, rounded to the nearest double. -/
def add (x y : F64) : F64 :=
  let e0 := min x.e y.e
  ofDyadic (x.m * 2 ^ (x.e - e0).toNat + y.m * 2 ^ (y.e - e0).toNat) e0

/-- Binary64 halving: exact in the normal range (only the exponent moves). -/
def half (x : F64) : F64 := ⟨x.m, x.e - 1⟩

/-- Strict comparison of two doubles: comparison of their exact values, by
shifting both significands to the common exponent. -/
def blt (x y : F64) : Bool :=
  let e0 := min x.e y.e
  decide (x.m * 2 ^ (x.e - e0).toNat < y.m * 2 ^ (y.e - e0).toNat)

theorem val_shift (x : F64) (e0 : Int) (h : e0 ≤ x.e) :
    x.toRat = ((x.m * 2 ^ (x.e - e0).toNat : Int) : ℚ) * (2 : ℚ) ^ e0 := by
  unfold toRat
  push_cast
  rw [← zpow_natCast (2 : ℚ) (x.e - e0).toNat, Int.toNat_of_nonneg (by omega)]
  rw [mul_assoc, ← zpow_add₀ (by norm_num : (2 : ℚ) ≠ 0)]
  rw [sub_add_cancel]

theorem blt_iff_val (x y : F64) : x.blt y = true ↔ x.toRat < y.toRat := by
  unfold blt
  rw [decide_eq_true_iff]
  rw [val_shift x (min x.e y.e) (min_le_left _ _),
      val_shift y (min x.e y.e) (min_le_right _ _)]
  rw [mul_lt_mul_right (zpow_pos (by norm_num) _)]
  constructor
  · intro h
    exact_mod_cast h
  · intro h
    exact_mod_cast h

/-- toFixed(3) of a double followed by the parseFloat/toString round-trip:
the exact dyadic value rounded to three decimal places and rendered with
trailing zeros trimmed.  (toFixed rounds ties away from zero, but a dyadic
rational is never an exact odd half-thousandth, so the tie case cannot
arise.) -/
def fmt3 (x : F64) : String :=
  renderDec ⟨if 0 ≤ x.e then x.m * 1000 * 2 ^ x.e.toNat
             else Dec.roundAway (x.m * 1000) (2 ^ (-x.e).toNat), 3⟩

end F64

/-! Data model of the upstream events (src/types/PolymarketWebSocket.ts), with
the wire fields the core reads.  Trade sides are the BUY/SELL enum. -/

/-- Trade side enum. -/
inductive Side where
  | buy
  | sell
deriving DecidableEq, Repr

/-- One price level of a book side. -/
structure PriceLevel where
  price : String
  size : String
deriving DecidableEq, Repr

/-- Full book snapshot event. -/
structure BookEvent where
  asset_id : String
  timestamp : String
  bids : List PriceLevel
  asks : List PriceLevel
deriving DecidableEq, Repr

/-- One entry of the price_changes array of a price-change event. -/
structure PriceChangeItem where
  asset_id : String
  price : String
  size : String
  side : Side
deriving DecidableEq, Repr

/-- Price-change event: a batch of incremental level updates. -/
structure PriceChangeEvent where
  asset_id : String
  price_changes : List PriceChangeItem
  timestamp : String
deriving DecidableEq, Repr

/-- Last-trade-price event. -/
structure LastTradePriceEvent where
  asset_id : String
  price : String
  side : Side
  size : String
  timestamp : String
deriving DecidableEq, Repr

/-- Tick-size-change event. -/
structure TickSizeChangeEvent where
  asset_id : String
  old_tick_size : String
  new_tick_size : String
  timestamp : String
deriving DecidableEq, Repr

/-- Numeric sort key of a price level: its parsed price (an unparseable price
acts as zero; the JavaScript comparator is not well defined on NaN, and every
theorem about sorting assumes parseable prices). -/
def PriceLevel.key (l : PriceLevel) : Dec := (parseDec l.price).getD ⟨0, 0⟩

/-- Comparator relation of sortAscendingInPlace. -/
def levelLe (a b : PriceLevel) : Prop := a.key.ble b.key = true

/-- Comparator relation of sortDescendingInPlace. -/
def levelGe (a b : PriceLevel) : Prop := b.key.ble a.key = true

instance : DecidableRel levelLe := fun a b => by unfold levelLe; infer_instance

instance : DecidableRel levelGe := fun a b => by unfold levelGe; infer_instance

instance : IsTotal PriceLevel levelLe :=
  ⟨fun a b => Dec.ble_total a.key b.key⟩

instance : IsTrans PriceLevel levelLe :=
  ⟨fun _ _ _ h1 h2 => Dec.ble_trans h1 h2⟩

instance : IsTotal PriceLevel levelGe :=
  ⟨fun a b => (Dec.ble_total b.key a.key)⟩

instance : IsTrans PriceLevel levelGe :=
  ⟨fun _ _ _ h1 h2 => Dec.ble_trans h2 h1⟩

/-- Sort a book side ascending by numeric price (a stable comparison sort, as
Array.prototype.sort with the numeric comparator). -/
def sortAscendingInPlace (bookSide : List PriceLevel) : List PriceLevel :=
  bookSide.insertionSort levelLe

/-- Sort a book side descending by numeric price. -/
def sortDescendingInPlace (bookSide : List PriceLevel) : List PriceLevel :=
  bookSide.insertionSort levelGe

/-- Cached book entry for one asset (interface BookEntry). -/
structure BookEntry where
  bids : List PriceLevel
  asks : List PriceLevel
  price : Option String
  midpoint : Option String
  spread : Option String
deriving DecidableEq, Repr

/-- The book cache store: a JavaScript object keyed by asset id, so an
association list with unique keys. -/
abbrev BookCache := List (String × BookEntry)

namespace OrderBookCache

/-- Look up a book entry by asset id; null when absent (getBookEntry). -/
def getBookEntry (c : BookCache) (assetId : String) : Option BookEntry :=
  (c.find? (fun kv => kv.1 == assetId)).map (fun kv => kv.2)

/-- Store a book entry under an asset id, replacing an existing binding. -/
def setEntry (c : BookCache) (assetId : String) (e : BookEntry) : BookCache :=
  if c.any (fun kv => kv.1 == assetId) then
    c.map (fun kv => if kv.1 == assetId then (kv.1, e) else kv)
  else c ++ [(assetId, e)]

/-- Replace the full book for an asset after a book event.  The previously
derived price/midpoint/spread fields are preserved; both sides are re-sorted
(bids ascending, asks descending). -/
def replaceBook (c : BookCache) (event : BookEvent) : BookCache :=
  let prev := getBookEntry c event.asset_id
  let lastPrice := match prev with | some b => b.price | none => none
  let lastMidpoint := match prev with | some b => b.midpoint | none => none
  let lastSpread := match prev with | some b => b.spread | none => none
  setEntry c event.asset_id
    { bids := sortAscendingInPlace event.bids
      asks := sortDescendingInPlace event.asks
      price := lastPrice
      midpoint := lastMidpoint
      spread := lastSpread }

/-- Replace the size of the first level whose price string matches exactly. -/
def updateSizeAtFirstMatch : List PriceLevel → String → String → List PriceLevel
  | [], _, _ => []
  | l :: ls, p, s =>
    if l.price == p then { l with size := s } :: ls
    else l :: updateSizeAtFirstMatch ls p s

/-- Apply one price-change item to a book entry: on an exact price-string
match replace the size in place, otherwise push the new level and re-sort the
affected side only. -/
def applyPriceChange (book : BookEntry) (pc : PriceChangeItem) : BookEntry :=
  match pc.side with
  | Side.buy =>
    if book.bids.any (fun l => l.price == pc.price) then
      { book with bids := updateSizeAtFirstMatch book.bids pc.price pc.size }
    else
      { book with bids := sortAscendingInPlace (book.bids ++ [⟨pc.price, pc.size⟩]) }
  | Side.sell =>
    if book.asks.any (fun l => l.price == pc.price) then
      { book with asks := updateSizeAtFirstMatch book.asks pc.price pc.size }
    else
      { book with asks := sortDescendingInPlace (book.asks ++ [⟨pc.price, pc.size⟩]) }

/-- Apply the price_changes of an event in order.  A missing book throws in
the source; the items applied before the throw keep their effect, so the
result carries the partially updated cache and a success flag. -/
def upsertChanges (c : BookCache) : List PriceChangeItem → BookCache × Bool
  | [] => (c, true)
  | pc :: rest =>
    match getBookEntry c pc.asset_id with
    | none => (c, false)
    | some book => upsertChanges (setEntry c pc.asset_id (applyPriceChange book pc)) rest

/-- Update a cached book from a price_change event (upsertPriceChange).  The
Boolean is false when the source throws Book-not-found part way. -/
def upsertPriceChange (c : BookCache) (event : PriceChangeEvent) : BookCache × Bool :=
  upsertChanges c event.price_changes

/-- Decide whether the best-bid/best-ask spread exceeds cents, updating the
cached spread field as a side effect.  none models a thrown error: book not
cached, an empty side, or a NaN spread from an unparseable price.  The highest
bid is the last element of the ascending bids, the lowest ask the last element
of the descending asks.  parseFloat yields the double nearest each decimal
price, the subtraction rounds the exact difference to the nearest double
again, and the comparison with cents compares doubles, so the answer can
differ from the exact decimal spread at boundary inputs. -/
def spreadOver (c : BookCache) (assetId : String) (cents : F64) : Option (Bool × BookCache) :=
  match getBookEntry c assetId with
  | none => none
  | some book =>
    match book.asks.getLast?, book.bids.getLast? with
    | some lowestAsk, some highestBid =>
      match parseDec lowestAsk.price, parseDec highestBid.price with
      | some la, some hb =>
        let spread := F64.sub (F64.ofDec la) (F64.ofDec hb)
        some (cents.blt spread,
              setEntry c assetId { book with spread := some (F64.fmt3 spread) })
      | _, _ => none
    | _, _ => none

/-- Midpoint of the book, rounded to three decimals with trailing zeros
trimmed, updating the cached midpoint field as a side effect.  none models the
thrown errors (missing book, empty side, NaN).  The sum is a double addition
of the parsed doubles; the halving is exact on doubles. -/
def midpoint (c : BookCache) (assetId : String) : Option (String × BookCache) :=
  match getBookEntry c assetId with
  | none => none
  | some book =>
    match book.asks.getLast?, book.bids.getLast? with
    | some lowestAsk, some highestBid =>
      match parseDec lowestAsk.price, parseDec highestBid.price with
      | some la, some hb =>
        let s := F64.fmt3 ((F64.add (F64.ofDec hb) (F64.ofDec la)).half)
        some (s, setEntry c assetId { book with midpoint := some s })
      | _, _ => none
    | _, _ => none

/-- Remove one asset from the cache. -/
def clear (c : BookCache) (assetId : String) : BookCache :=
  c.filter (fun kv => kv.1 != assetId)

end OrderBookCache

/-! Price-derivation algorithm of GroupSocket (handlePriceChangeEvents and
handleLastTradeEvents).  Both handlers end in a textually identical
emit-if-changed block, factored here into one definition. -/

/-- The event that triggered a derived price update. -/
inductive TriggeringEvent where
  | priceChange (e : PriceChangeEvent)
  | lastTrade (e : LastTradePriceEvent)
deriving DecidableEq, Repr

/-- Derived price-update event (interface PolymarketPriceUpdateEvent). -/
structure PolymarketPriceUpdateEvent where
  asset_id : String
  timestamp : String
  triggeringEvent : TriggeringEvent
  bids : List PriceLevel
  asks : List PriceLevel
  price : String
  midpoint : String
  spread : String
deriving DecidableEq, Repr

namespace GroupSocket

/-- The 0.10 dollar spread threshold passed to spreadOver by both handlers:
the double denoted by the numeric literal 0.1. -/
def spreadThreshold : F64 := F64.ofDec ⟨1, 1⟩

/-- Emission block shared by both derivation handlers: look the entry up
again; if the candidate differs from the cached price field, update the field
and emit one derived price-update event carrying the identifier, the
triggering event timestamp, the triggering event, the current bids/asks, the
new price and the cached midpoint/spread (empty string when never computed);
otherwise emit nothing. -/
def emitIfChanged (c : BookCache) (assetId timestamp : String) (trig : TriggeringEvent)
    (newPrice : String) : BookCache × List PolymarketPriceUpdateEvent :=
  match OrderBookCache.getBookEntry c assetId with
  | none => (c, [])
  | some bookEntry =>
    if bookEntry.price == some newPrice then (c, [])
    else
      let entry := { bookEntry with price := some newPrice }
      (OrderBookCache.setEntry c assetId entry,
       [{ asset_id := assetId
          timestamp := timestamp
          triggeringEvent := trig
          bids := entry.bids
          asks := entry.asks
          price := newPrice
          midpoint := entry.midpoint.getD ""
          spread := entry.spread.getD "" }])

/-- Candidate selection of the price_change handler for one event: upsert the
book (skip on a missing book, keeping the partial update), compute spreadOver
0.1 (skip on error), and produce the midpoint as candidate only when the
spread is not over ten cents; a wide spread produces no candidate here.
Returns the cache state at decision time together with the candidate. -/
def priceChangeCandidate (c : BookCache) (event : PriceChangeEvent) :
    BookCache × Option String :=
  match OrderBookCache.upsertPriceChange c event with
  | (c1, false) => (c1, none)
  | (c1, true) =>
    match OrderBookCache.spreadOver c1 event.asset_id spreadThreshold with
    | none => (c1, none)
    | some (true, c2) => (c2, none)
    | some (false, c2) =>
      match OrderBookCache.midpoint c2 event.asset_id with
      | none => (c2, none)
      | some (newPrice, c3) => (c3, some newPrice)

/-- Derivation step of handlePriceChangeEvents for one price_change event. -/
def handlePriceChangeEventStep (c : BookCache) (event : PriceChangeEvent) :
    BookCache × List PolymarketPriceUpdateEvent :=
  match priceChangeCandidate c event with
  | (c1, none) => (c1, [])
  | (c1, some newPrice) =>
    emitIfChanged c1 event.asset_id event.timestamp (TriggeringEvent.priceChange event) newPrice

/-- Candidate selection of the last_trade_price handler for one event: compute
spreadOver 0.1 (skip on error) and produce the trade price normalized by the
parse round-trip as candidate only when the spread is over ten cents; a narrow
spread produces no candidate here. -/
def lastTradeCandidate (c : BookCache) (event : LastTradePriceEvent) :
    BookCache × Option String :=
  match OrderBookCache.spreadOver c event.asset_id spreadThreshold with
  | none => (c, none)
  | some (false, c1) => (c1, none)
  | some (true, c1) => (c1, some (normalizeNumStr event.price))

/-- Derivation step of handleLastTradeEvents for one last_trade_price event. -/
def handleLastTradeEventStep (c : BookCache) (event : LastTradePriceEvent) :
    BookCache × List PolymarketPriceUpdateEvent :=
  match lastTradeCandidate c event with
  | (c1, none) => (c1, [])
  | (c1, some newPrice) =>
    emitIfChanged c1 event.asset_id event.timestamp (TriggeringEvent.lastTrade event) newPrice

end GroupSocket

/-! Single-connection subscription manager (src/WSSubscriptionManager.ts).
The embedding tracks the three asset sets; the WebSocket handle, timers and
book cache are orthogonal to the set claims and are represented only through
the Booleans of flushPendingSubscriptions (connection open, frame sends
succeed). -/

/-- The three asset-tracking sets of one manager instance. -/
structure ManagerState where
  subscribedAssetIds : Finset String
  pendingSubscribeAssetIds : Finset String
  pendingUnsubscribeAssetIds : Finset String
deriving DecidableEq

namespace WSSubscriptionManager

/-- Fresh manager: all three sets empty. -/
def initState : ManagerState := ⟨∅, ∅, ∅⟩

/-- Loop body of addSubscriptions for one asset id: first remove the id from
pendingUnsubscribe (cancel an in-flight unsubscription), then skip if already
subscribed, else add to pendingSubscribe. -/
def addSubscriptionsOne (s : ManagerState) (assetId : String) : ManagerState :=
  let s1 := { s with pendingUnsubscribeAssetIds := s.pendingUnsubscribeAssetIds.erase assetId }
  if assetId ∈ s1.subscribedAssetIds then s1
  else { s1 with pendingSubscribeAssetIds := insert assetId s1.pendingSubscribeAssetIds }

/-- addSubscriptions over a batch of asset ids. -/
def addSubscriptions (s : ManagerState) (ids : List String) : ManagerState :=
  ids.foldl addSubscriptionsOne s

/-- Loop body of removeSubscriptions for one asset id: if only pending
subscribe, drop it there; else if subscribed, flag it pending unsubscribe
(without leaving the subscribed set); else no-op. -/
def removeSubscriptionsOne (s : ManagerState) (assetId : String) : ManagerState :=
  if assetId ∈ s.pendingSubscribeAssetIds then
    { s with pendingSubscribeAssetIds := s.pendingSubscribeAssetIds.erase assetId }
  else if assetId ∈ s.subscribedAssetIds then
    { s with pendingUnsubscribeAssetIds := insert assetId s.pendingUnsubscribeAssetIds }
  else s

/-- removeSubscriptions over a batch of asset ids. -/
def removeSubscriptions (s : ManagerState) (ids : List String) : ManagerState :=
  ids.foldl removeSubscriptionsOne s

/-- Unsubscribe phase of flushPendingSubscriptions: if any unsubscriptions are
pending and the unsubscribe frame send succeeds, the ids leave the subscribed
set and pendingUnsubscribe is cleared; a failed send leaves the sets alone. -/
def flushUnsubscribePhase (s : ManagerState) (sendOk : Bool) : ManagerState :=
  if s.pendingUnsubscribeAssetIds ≠ ∅ ∧ sendOk = true then
    { s with
      subscribedAssetIds := s.subscribedAssetIds \ s.pendingUnsubscribeAssetIds
      pendingUnsubscribeAssetIds := ∅ }
  else s

/-- Subscribe phase of flushPendingSubscriptions: if any subscriptions are
pending and the subscribe frame send succeeds, the ids enter the subscribed
set and pendingSubscribe is cleared; a failed send leaves the sets alone. -/
def flushSubscribePhase (s : ManagerState) (sendOk : Bool) : ManagerState :=
  if s.pendingSubscribeAssetIds ≠ ∅ ∧ sendOk = true then
    { s with
      subscribedAssetIds := s.subscribedAssetIds ∪ s.pendingSubscribeAssetIds
      pendingSubscribeAssetIds := ∅ }
  else s

/-- flushPendingSubscriptions: a no-op unless the socket is open; then the
pending unsubscriptions are processed first, then the pending
subscriptions. -/
def flushPendingSubscriptions (s : ManagerState)
    (connected unsubscribeSendOk subscribeSendOk : Bool) : ManagerState :=
  if connected = false then s
  else flushSubscribePhase (flushUnsubscribePhase s unsubscribeSendOk) subscribeSendOk

/-- Set logic shared by handleError and handleClose: every subscribed id not
flagged pending-unsubscribe moves back to pendingSubscribe, then the
subscribed and pendingUnsubscribe sets are cleared. -/
def handleDisconnect (s : ManagerState) : ManagerState :=
  { subscribedAssetIds := ∅
    pendingSubscribeAssetIds :=
      s.pendingSubscribeAssetIds ∪ (s.subscribedAssetIds \ s.pendingUnsubscribeAssetIds)
    pendingUnsubscribeAssetIds := ∅ }

/-- clearState: all three sets cleared. -/
def clearState (_ : ManagerState) : ManagerState := initState

/-- getAssetIds: the subscribed set plus the pending subscriptions, minus the
pending unsubscriptions (the source materializes this set into an array). -/
def getAssetIds (s : ManagerState) : Finset String :=
  (s.subscribedAssetIds ∪ s.pendingSubscribeAssetIds) \ s.pendingUnsubscribeAssetIds

/-- The manager states reachable from a fresh manager through its public
operations and connection-lifecycle handlers. -/
inductive Reachable : ManagerState → Prop where
  | init : Reachable initState
  | add (s : ManagerState) (ids : List String) :
      Reachable s → Reachable (addSubscriptions s ids)
  | remove (s : ManagerState) (ids : List String) :
      Reachable s → Reachable (removeSubscriptions s ids)
  | flush (s : ManagerState) (connected unsubscribeSendOk subscribeSendOk : Bool) :
      Reachable s → Reachable (flushPendingSubscriptions s connected unsubscribeSendOk subscribeSendOk)
  | disconnect (s : ManagerState) : Reachable s → Reachable (handleDisconnect s)
  | clear (s : ManagerState) : Reachable s → Reachable (clearState s)

end WSSubscriptionManager

/-! Connection-group registry (src/modules/GroupRegistry.ts).  Group ids are
modelled by a counter standing for the uuid supply: each generated id is fresh
and distinct from all earlier ones, which is exactly what the registry relies
on. -/

/-- Lifecycle status of a connection group. -/
inductive WebSocketStatus where
  | pending
  | alive
  | dead
  | cleanup
deriving DecidableEq, Repr

/-- One connection group: id, member set, transport handle (true when a socket
handle is attached, the model of a non-null wsClient) and status. -/
structure WebSocketGroup where
  groupId : Nat
  assetIds : Finset String
  wsClient : Bool
  status : WebSocketStatus
deriving DecidableEq

/-- The registry: the live group list plus the fresh-id counter. -/
structure GroupRegistryState where
  groups : List WebSocketGroup
  nextId : Nat
deriving DecidableEq

namespace GroupRegistry

/-- Successive chunks of at most k elements (lodash chunk; chunk size zero
yields no chunks, as in lodash). -/
def chunkList : Nat → List α → List (List α)
  | _, [] => []
  | 0, _ :: _ => []
  | k + 1, x :: xs => (x :: xs).take (k + 1) :: chunkList (k + 1) (xs.drop k)
termination_by k l => l.length
decreasing_by
  simp only [List.length_drop, List.length_cons]
  omega

/-- Create one fresh PENDING group per chunk, with consecutive fresh ids. -/
def mkGroups : Nat → List (List String) → List WebSocketGroup
  | _, [] => []
  | n, chunk :: rest =>
    ⟨n, chunk.toFinset, false, WebSocketStatus.pending⟩ :: mkGroups (n + 1) rest

/-- Find the first non-empty group with room for the new assets. -/
def findGroupWithCapacity (groups : List WebSocketGroup) (newAssetLen maxPerWS : Nat) :
    Option Nat :=
  (groups.find? (fun g =>
    decide (g.assetIds.card ≠ 0 ∧ g.assetIds.card + newAssetLen ≤ maxPerWS))).map
    (fun g => g.groupId)

/-- Mark the first group with the given id for cleanup, emptying its member
set (the in-place mutation of the reused group in addAssets). -/
def markCleanupFirst : List WebSocketGroup → Nat → List WebSocketGroup
  | [], _ => []
  | g :: gs, gid =>
    if g.groupId = gid then
      { g with assetIds := ∅, status := WebSocketStatus.cleanup } :: gs
    else g :: markCleanupFirst gs gid

/-- The asset ids of a call that are not yet present in any group. -/
def newIdsOf (reg : GroupRegistryState) (assetIds : List String) : List String :=
  assetIds.filter (fun id => !(reg.groups.any (fun g => decide (id ∈ g.assetIds))))

/-- addAssets: filter out already-present ids; if none remain do nothing.
Otherwise reuse the first group with capacity (union its members with the new
ids into one freshly created PENDING group and mark the old group CLEANUP with
an emptied member set), or, when no group has capacity, create one fresh
PENDING group per chunk of at most maxPerWS new ids.  Returns the ids of the
newly created groups.  The source throws (leaving the registry unchanged, the
error surfacing to the caller) if the group found by capacity cannot be found
by id again; the model returns the unchanged registry in that dead branch. -/
def addAssets (reg : GroupRegistryState) (assetIds : List String) (maxPerWS : Nat) :
    GroupRegistryState × List Nat :=
  let newAssetIds := newIdsOf reg assetIds
  if newAssetIds.isEmpty then (reg, [])
  else
    match findGroupWithCapacity reg.groups newAssetIds.length maxPerWS with
    | none =>
      let created := mkGroups reg.nextId (chunkList maxPerWS newAssetIds)
      (⟨reg.groups ++ created, reg.nextId + created.length⟩, created.map (fun g => g.groupId))
    | some existingGroupId =>
      match reg.groups.find? (fun g => g.groupId == existingGroupId) with
      | none => (reg, [])
      | some existingGroup =>
        let updatedAssetIds := existingGroup.assetIds ∪ newAssetIds.toFinset
        (⟨markCleanupFirst reg.groups existingGroupId ++
            [⟨reg.nextId, updatedAssetIds, false, WebSocketStatus.pending⟩],
          reg.nextId + 1⟩,
         [reg.nextId])

/-- Accumulator of the first pass of getGroupsToReconnectAndCleanup. -/
structure SweepAcc where
  processed : List WebSocketGroup
  toRemove : List Nat
  reconnectIds : List Nat
deriving DecidableEq

/-- Loop body of the sweep for one group (first pass): an empty group is
marked for removal; an ALIVE group is skipped; a DEAD group is disconnected
and queued for reconnection; a CLEANUP group has its member set emptied and is
marked for removal; a PENDING group is queued for reconnection. -/
def sweepGroup (acc : SweepAcc) (g : WebSocketGroup) : SweepAcc :=
  if g.assetIds.card = 0 then
    { processed := acc.processed ++ [g]
      toRemove := acc.toRemove ++ [g.groupId]
      reconnectIds := acc.reconnectIds }
  else
    match g.status with
    | WebSocketStatus.alive => { acc with processed := acc.processed ++ [g] }
    | WebSocketStatus.dead =>
      { processed := acc.processed ++ [{ g with wsClient := false }]
        toRemove := acc.toRemove
        reconnectIds := acc.reconnectIds ++ [g.groupId] }
    | WebSocketStatus.cleanup =>
      { processed := acc.processed ++ [{ g with assetIds := ∅ }]
        toRemove := acc.toRemove ++ [g.groupId]
        reconnectIds := acc.reconnectIds }
    | WebSocketStatus.pending =>
      { processed := acc.processed ++ [g]
        toRemove := acc.toRemove
        reconnectIds := acc.reconnectIds ++ [g.groupId] }

/-- Result of the sweep.  The source drops the removed groups after closing
their sockets; the model returns them (post-disconnect) so the close is
observable. -/
structure SweepResult where
  registry : GroupRegistryState
  reconnectIds : List Nat
  removedGroups : List WebSocketGroup
deriving DecidableEq

/-- getGroupsToReconnectAndCleanup: one pass classifies every group (see
sweepGroup); then every group marked for removal is disconnected and removed
from the list; the reconnect ids collected from DEAD and PENDING groups are
returned. -/
def getGroupsToReconnectAndCleanup (reg : GroupRegistryState) : SweepResult :=
  let acc := reg.groups.foldl sweepGroup ⟨[], [], []⟩
  let removed := (acc.processed.filter (fun g => acc.toRemove.contains g.groupId)).map
    (fun g => { g with wsClient := false })
  let remaining := acc.processed.filter (fun g => !(acc.toRemove.contains g.groupId))
  ⟨⟨remaining, reg.nextId⟩, acc.reconnectIds, removed⟩

end GroupRegistry

/-! Event dispatch to user callbacks (actOnSubscribedEvents in both manager
variants).  A user callback is a function that may throw, modelled as an
Except value; the question settled here is whether the manager catches the
thrown value or lets it propagate to the message-handling path. -/

/-- Error value thrown by a user callback. -/
structure ErrorValue where
  message : String
deriving DecidableEq, Repr

/-- Any event the manager dispatches to user handlers. -/
inductive ManagedEvent where
  | book (e : BookEvent)
  | lastTrade (e : LastTradePriceEvent)
  | tick (e : TickSizeChangeEvent)
  | priceChange (e : PriceChangeEvent)
  | priceUpdate (e : PolymarketPriceUpdateEvent)
deriving DecidableEq, Repr

/-- Top-level asset id of a managed event. -/
def ManagedEvent.assetId : ManagedEvent → String
  | ManagedEvent.book e => e.asset_id
  | ManagedEvent.lastTrade e => e.asset_id
  | ManagedEvent.tick e => e.asset_id
  | ManagedEvent.priceChange e => e.asset_id
  | ManagedEvent.priceUpdate e => e.asset_id

/-- Subscription filter of the single-connection variant: a price-change event
passes if any of its price_changes is for a subscribed asset, any other event
passes if its asset id is subscribed. -/
def eventMatchesSubscribed (subscribed : Finset String) : ManagedEvent → Bool
  | ManagedEvent.priceChange e =>
    e.price_changes.any (fun pc => decide (pc.asset_id ∈ subscribed))
  | ev => decide (ev.assetId ∈ subscribed)

/-- actOnSubscribedEvents of the single-connection variant: filter the batch
to subscribed assets, skip the callback when nothing remains, and catch (log
and swallow) anything the user callback throws. -/
def actOnSubscribedEventsSingle (subscribed : Finset String) (events : List ManagedEvent)
    (action : List ManagedEvent → Except ErrorValue Unit) : Except ErrorValue Unit :=
  let filtered := events.filter (eventMatchesSubscribed subscribed)
  if filtered.isEmpty then Except.ok ()
  else
    match action filtered with
    | Except.ok _ => Except.ok ()
    | Except.error _ => Except.ok ()

/-- actOnSubscribedEvents of the group variant: filter the batch to assets
present in some group, then await the user callback directly; whatever the
callback throws is the result of the dispatch (there is no catch here, nor in
the message handler that awaits this dispatch). -/
def actOnSubscribedEventsGroup (groups : List WebSocketGroup) (events : List ManagedEvent)
    (action : List ManagedEvent → Except ErrorValue Unit) : Except ErrorValue Unit :=
  let filtered := events.filter (fun e => groups.any (fun g => decide (e.assetId ∈ g.assetIds)))
  action filtered

/-- safeCallErrorHandler of the single-connection variant: invoke the user
error callback inside its own try/catch, so even a throwing error callback is
logged and swallowed; the call always returns normally. -/
def safeCallErrorHandler (onError : ErrorValue → Except ErrorValue Unit)
    (e : ErrorValue) : Except ErrorValue Unit :=
  match onError e with
  | Except.ok _ => Except.ok ()
  | Except.error _ => Except.ok ()

/-- addSubscriptions of the single-connection variant, at the public boundary:
the set mutations of the loop cannot throw and they precede the connection
attempt, so they persist either way; the connection attempt is the body's one
throwing step (connect rethrows its failure), and the surrounding try/catch
routes it to safeCallErrorHandler.  The Except component is what the public
caller observes. -/
def addSubscriptionsPublic (s : ManagerState) (ids : List String)
    (connectResult : Except ErrorValue Unit)
    (onError : ErrorValue → Except ErrorValue Unit) :
    ManagerState × Except ErrorValue Unit :=
  match connectResult with
  | Except.ok _ => (WSSubscriptionManager.addSubscriptions s ids, Except.ok ())
  | Except.error e =>
      (WSSubscriptionManager.addSubscriptions s ids, safeCallErrorHandler onError e)

/-- removeSubscriptions of the single-connection variant, at the public
boundary: the loop body only mutates the three sets and cannot throw, so the
surrounding try/catch is vacuous and the call returns normally. -/
def removeSubscriptionsPublic (s : ManagerState) (ids : List String) :
    ManagerState × Except ErrorValue Unit :=
  (WSSubscriptionManager.removeSubscriptions s ids, Except.ok ())

/-- addSubscriptions of the group variant, at the public boundary: a failure
of the body (registry update or connection creation) is caught, but the catch
block awaits the user error callback directly with no guard, so whatever the
error callback throws is the public result.  removeSubscriptions of the group
variant has the same catch block. -/
def addSubscriptionsGroupPublic (body : Except ErrorValue Unit)
    (onError : ErrorValue → Except ErrorValue Unit) : Except ErrorValue Unit :=
  match body with
  | Except.ok _ => Except.ok ()
  | Except.error e => onError e

/-! Helper lemmas about the cache store. -/

theorem getBookEntry_map_replace (c : BookCache) (assetId : String) (e : BookEntry)
    (h : c.any (fun kv => kv.1 == assetId) = true) :
    OrderBookCache.getBookEntry
      (c.map (fun kv => if kv.1 == assetId then (kv.1, e) else kv)) assetId = some e := by
  induction c with
  | nil => simp at h
  | cons kv t ih =>
    unfold OrderBookCache.getBookEntry
    rw [List.map_cons]
    by_cases hk : (kv.1 == assetId) = true
    · rw [if_pos hk]
      rw [List.find?_cons_of_pos _ (by simpa using hk)]
      simp
    · rw [if_neg hk]
      rw [List.find?_cons_of_neg _ (by simpa using hk)]
      have ht : t.any (fun kv => kv.1 == assetId) = true := by
        rcases Bool.or_eq_true_iff.mp (by rw [List.any_cons] at h; exact h) with h1 | h2
        · exact absurd h1 hk
        · exact h2
      have := ih ht
      unfold OrderBookCache.getBookEntry at this
      exact this

theorem getBookEntry_append_single (c : BookCache) (assetId : String) (e : BookEntry)
    (h : c.any (fun kv => kv.1 == assetId) = false) :
    OrderBookCache.getBookEntry (c ++ [(assetId, e)]) assetId = some e := by
  induction c with
  | nil =>
    unfold OrderBookCache.getBookEntry
    rw [List.nil_append, List.find?_cons_of_pos _ (by simp)]
    simp
  | cons kv t ih =>
    rcases Bool.or_eq_false_iff.mp (by rw [List.any_cons] at h; exact h) with ⟨h1, h2⟩
    unfold OrderBookCache.getBookEntry
    rw [List.cons_append, List.find?_cons_of_neg _ (by simp [h1])]
    have := ih h2
    unfold OrderBookCache.getBookEntry at this
    exact this

theorem getBookEntry_setEntry_self (c : BookCache) (assetId : String) (e : BookEntry) :
    OrderBookCache.getBookEntry (OrderBookCache.setEntry c assetId e) assetId = some e := by
  unfold OrderBookCache.setEntry
  by_cases h : c.any (fun kv => kv.1 == assetId) = true
  · simpa [h] using getBookEntry_map_replace c assetId e h
  · have hf : c.any (fun kv => kv.1 == assetId) = false := by
      exact Bool.not_eq_true _ ▸ (by simpa using h)
    simpa [hf] using getBookEntry_append_single c assetId e hf

/-! Claim C7: spreadOver and the strict numeric inequality lowest ask minus
highest bid greater than the threshold.  The code computes
parseFloat(lowestAsk) - parseFloat(highestBid) > cents in binary64, and the
double rounding makes the answer disagree with the exact decimal spread at
boundary inputs: 0.55 - 0.45 is exactly 0.10, but the double difference is
0.10000000000000003 and the comparison with 0.1 returns true, which corrects
the claim. -/

def c7xcache : BookCache :=
  [( "A", ⟨[⟨ "0.45", "10" ⟩], [⟨ "0.55", "5" ⟩], none, none, none⟩)]

/-- Counterexample to C7 as stated: highest bid 0.45, lowest ask 0.55,
threshold 0.1.  The exact numeric spread is exactly 0.10, not strictly
greater than 0.1, so the claim's rule answers false; the run returns true,
because the binary64 difference of the parsed doubles is
0.10000000000000003. -/
theorem spreadOver_exact_boundary_disagrees :
    (OrderBookCache.spreadOver c7xcache ( "A" ) GroupSocket.spreadThreshold).map
        (fun r => r.1) = some true
  ∧ ¬(Dec.toRat ⟨55, 2⟩ - Dec.toRat ⟨45, 2⟩ > Dec.toRat ⟨1, 1⟩)
  ∧ parseDec "0.55" = some ⟨55, 2⟩ ∧ parseDec "0.45" = some ⟨45, 2⟩
  ∧ Dec.toRat ⟨55, 2⟩ = 55 / 100 ∧ Dec.toRat ⟨45, 2⟩ = 45 / 100
  ∧ Dec.toRat ⟨1, 1⟩ = 1 / 10 := by
  refine ⟨by decide, by norm_num [Dec.toRat], by decide, by decide,
    by norm_num [Dec.toRat], by norm_num [Dec.toRat], by norm_num [Dec.toRat]⟩

/-- C7 (amended).  For a cached book entry with non-empty bids and asks whose
best-level price strings parse as numbers, spreadOver returns true exactly
when the binary64 difference of the parsed prices — the double nearest to
(double nearest the lowest ask) minus (double nearest the highest bid) — is
strictly greater than the threshold double, comparing exact values.  Because
each step rounds to a double, the answer can disagree with the exact decimal
spread at boundary inputs (bid 0.45 / ask 0.55 / threshold 0.1 yields true);
with highest bid 0.2, lowest ask 0.3 and threshold 0.1 the double difference
is below 0.1 and the run returns false. -/
theorem spreadOver_iff_double_spread_gt
    (c : BookCache) (assetId : String) (cents : F64) (book : BookEntry)
    (lowestAsk highestBid : PriceLevel) (da db : Dec) (b : Bool) (c2 : BookCache)
    (hfind : OrderBookCache.getBookEntry c assetId = some book)
    (hla : book.asks.getLast? = some lowestAsk)
    (hhb : book.bids.getLast? = some highestBid)
    (hpa : parseDec lowestAsk.price = some da)
    (hpb : parseDec highestBid.price = some db)
    (hrun : OrderBookCache.spreadOver c assetId cents = some (b, c2)) :
    b = true ↔ (F64.sub (F64.ofDec da) (F64.ofDec db)).toRat > cents.toRat := by
  unfold OrderBookCache.spreadOver at hrun
  rw [hfind] at hrun
  simp only [hla, hhb, hpa, hpb] at hrun
  have hb : b = cents.blt (F64.sub (F64.ofDec da) (F64.ofDec db)) := by
    have := (Option.some.inj hrun)
    exact (congrArg Prod.fst this).symm
  subst hb
  rw [F64.blt_iff_val]

def c7cache : BookCache :=
  [( "A", ⟨[⟨ "0.2", "10" ⟩], [⟨ "0.3", "5" ⟩], none, none, none⟩)]

def c7after : BookCache :=
  [( "A", ⟨[⟨ "0.2", "10" ⟩], [⟨ "0.3", "5" ⟩], none, none, some "0.1" ⟩)]

/-- Witness for C7 (amended) at the boundary input the claim singles out:
highest bid 0.2, lowest ask 0.3, threshold 0.1.  The run returns false, and
via the theorem the binary64 spread does not exceed the threshold double. -/
theorem spreadOver_iff_double_spread_gt_witness :
    OrderBookCache.spreadOver c7cache ( "A" ) GroupSocket.spreadThreshold
      = some (false, c7after)
  ∧ ¬((F64.sub (F64.ofDec ⟨3, 1⟩) (F64.ofDec ⟨2, 1⟩)).toRat
        > (GroupSocket.spreadThreshold).toRat) := by
  have hrun : OrderBookCache.spreadOver c7cache ( "A" ) GroupSocket.spreadThreshold
      = some (false, c7after) := by
    decide
  refine ⟨hrun, ?_⟩
  have h := spreadOver_iff_double_spread_gt c7cache ( "A" ) GroupSocket.spreadThreshold
    ⟨[⟨ "0.2", "10" ⟩], [⟨ "0.3", "5" ⟩], none, none, none⟩
    ⟨ "0.3", "5" ⟩ ⟨ "0.2", "10" ⟩ ⟨3, 1⟩ ⟨2, 1⟩ false c7after
    (by decide) (by decide) (by decide) (by decide) (by decide) hrun
  intro hgt
  exact Bool.false_ne_true (h.mpr hgt)

/-! Claim C2: a derived price-update event is emitted exactly when the
candidate differs from the cached price field, with the documented payload,
and a repeated identical candidate is suppressed. -/

/-- C2.  For a derivation run that reached the emission block with candidate
newPrice and with the book entry present: an event is emitted iff the
candidate differs (as a string) from the previously cached price field; when
emitted, the cached price field becomes the candidate and the single emitted
event carries the identifier, the triggering event timestamp, the triggering
event, the current bids/asks, the new price, and the last-computed
midpoint/spread fields of the cache (empty string when never computed); when
the candidate equals the cached price nothing is emitted and the cache is
untouched; and a second run with the same candidate emits nothing. -/
theorem priceUpdate_emission_iff_price_changed
    (c : BookCache) (assetId timestamp : String) (trig : TriggeringEvent) (newPrice : String)
    (bookEntry : BookEntry)
    (hfind : OrderBookCache.getBookEntry c assetId = some bookEntry) :
    ((GroupSocket.emitIfChanged c assetId timestamp trig newPrice).2 ≠ [] ↔
        bookEntry.price ≠ some newPrice)
  ∧ (bookEntry.price ≠ some newPrice →
      (GroupSocket.emitIfChanged c assetId timestamp trig newPrice).2 =
        [{ asset_id := assetId
           timestamp := timestamp
           triggeringEvent := trig
           bids := bookEntry.bids
           asks := bookEntry.asks
           price := newPrice
           midpoint := bookEntry.midpoint.getD ""
           spread := bookEntry.spread.getD "" }]
      ∧ OrderBookCache.getBookEntry
          (GroupSocket.emitIfChanged c assetId timestamp trig newPrice).1 assetId
          = some { bookEntry with price := some newPrice })
  ∧ (bookEntry.price = some newPrice →
      GroupSocket.emitIfChanged c assetId timestamp trig newPrice = (c, []))
  ∧ (∀ ts2 trig2,
      (GroupSocket.emitIfChanged
        (GroupSocket.emitIfChanged c assetId timestamp trig newPrice).1
        assetId ts2 trig2 newPrice).2 = []) := by
  by_cases hp : bookEntry.price = some newPrice
  · have hpb : (bookEntry.price == some newPrice) = true := beq_iff_eq.mpr hp
    have hrun : GroupSocket.emitIfChanged c assetId timestamp trig newPrice = (c, []) := by
      unfold GroupSocket.emitIfChanged
      rw [hfind]
      simp [hpb]
    refine ⟨by simp [hrun, hp], fun hne => absurd hp hne, fun _ => hrun,
      fun ts2 trig2 => ?_⟩
    rw [hrun]
    have hrun2 : GroupSocket.emitIfChanged c assetId ts2 trig2 newPrice = (c, []) := by
      unfold GroupSocket.emitIfChanged
      rw [hfind]
      simp [hpb]
    rw [hrun2]
  · have hpb : ¬((bookEntry.price == some newPrice) = true) := by
      simpa [beq_iff_eq] using hp
    have hrun : GroupSocket.emitIfChanged c assetId timestamp trig newPrice =
        (OrderBookCache.setEntry c assetId { bookEntry with price := some newPrice },
         [{ asset_id := assetId
            timestamp := timestamp
            triggeringEvent := trig
            bids := bookEntry.bids
            asks := bookEntry.asks
            price := newPrice
            midpoint := bookEntry.midpoint.getD ""
            spread := bookEntry.spread.getD "" }]) := by
      unfold GroupSocket.emitIfChanged
      rw [hfind]
      simp [hpb]
    refine ⟨by simp [hrun, hp], fun _ => ⟨by rw [hrun], ?_⟩, fun hEq => absurd hEq hp,
      fun ts2 trig2 => ?_⟩
    · rw [hrun]
      exact getBookEntry_setEntry_self _ _ _
    · rw [hrun]
      have hrun2 : GroupSocket.emitIfChanged
          (OrderBookCache.setEntry c assetId { bookEntry with price := some newPrice })
          assetId ts2 trig2 newPrice =
          (OrderBookCache.setEntry c assetId { bookEntry with price := some newPrice }, []) := by
        unfold GroupSocket.emitIfChanged
        rw [getBookEntry_setEntry_self]
        simp
      rw [hrun2]

def c2entry : BookEntry :=
  ⟨[⟨ "0.4", "1" ⟩], [⟨ "0.5", "2" ⟩], some "0.4", some "0.45", some "0.1" ⟩

def c2cache : BookCache := [( "B", c2entry)]

def c2trig : TriggeringEvent :=
  TriggeringEvent.lastTrade ⟨ "B", "0.7", Side.sell, "1", "7" ⟩

/-- Witness for C2 at a concrete cache with cached price 0.4 and candidate
0.5. -/
theorem priceUpdate_emission_iff_price_changed_witness :
    OrderBookCache.getBookEntry c2cache ( "B" ) = some c2entry
  ∧ ((GroupSocket.emitIfChanged c2cache ( "B" ) ( "7" ) c2trig ( "0.5" )).2 ≠ [] ↔
      c2entry.price ≠ some "0.5" ) := by
  exact ⟨by decide,
    (priceUpdate_emission_iff_price_changed c2cache ( "B" ) ( "7" ) c2trig ( "0.5" )
      c2entry (by decide)).1⟩

/-! Claim C1: which candidate the derivation chooses.  The price-change
handler only ever derives the midpoint (and only when the spread is at most
ten cents); the last-trade handler only ever derives the normalized trade
price (and only when the spread is over ten cents).  The two remaining
combinations produce no candidate at all, which corrects the claim. -/

/-- C1 (amended).  For a price-change event whose book upsert succeeded and
whose spreadOver 0.1 run succeeded with answer b1, the candidate is the cache
midpoint when b1 is false (spread at most ten cents) and nothing when b1 is
true; for a last-trade event whose spreadOver 0.1 run succeeded with answer
b2, the candidate is the trade price normalized by the numeric parse
round-trip when b2 is true (spread over ten cents) and nothing when b2 is
false. -/
theorem derivation_candidate_branch_rule
    (c : BookCache) (pev : PriceChangeEvent) (lev : LastTradePriceEvent)
    (b1 b2 : Bool) (cp cl : BookCache)
    (hup : (OrderBookCache.upsertPriceChange c pev).2 = true)
    (h1 : OrderBookCache.spreadOver (OrderBookCache.upsertPriceChange c pev).1
            pev.asset_id GroupSocket.spreadThreshold = some (b1, cp))
    (h2 : OrderBookCache.spreadOver c lev.asset_id GroupSocket.spreadThreshold
            = some (b2, cl)) :
    (b1 = false →
        (GroupSocket.priceChangeCandidate c pev).2 =
          (OrderBookCache.midpoint cp pev.asset_id).map (fun m => m.1))
  ∧ (b1 = true → (GroupSocket.priceChangeCandidate c pev).2 = none)
  ∧ (b2 = true →
        (GroupSocket.lastTradeCandidate c lev).2 = some (normalizeNumStr lev.price))
  ∧ (b2 = false → (GroupSocket.lastTradeCandidate c lev).2 = none) := by
  rcases hu : OrderBookCache.upsertPriceChange c pev with ⟨u, ub⟩
  rw [hu] at hup h1
  simp only at hup h1
  subst hup
  have hpc : ∀ hb1 : Bool, hb1 = b1 →
      (GroupSocket.priceChangeCandidate c pev) =
        (match OrderBookCache.spreadOver u pev.asset_id GroupSocket.spreadThreshold with
          | none => (u, none)
          | some (true, c2) => (c2, none)
          | some (false, c2) =>
            match OrderBookCache.midpoint c2 pev.asset_id with
            | none => (c2, none)
            | some (newPrice, c3) => (c3, some newPrice)) := by
    intro _ _
    unfold GroupSocket.priceChangeCandidate
    rw [hu]
  refine ⟨?_, ?_, ?_, ?_⟩
  · intro hb1
    subst hb1
    rw [hpc false rfl, h1]
    cases hm : OrderBookCache.midpoint cp pev.asset_id with
    | none => simp [hm]
    | some m => simp [hm]
  · intro hb1
    subst hb1
    rw [hpc true rfl, h1]
  · intro hb2
    subst hb2
    unfold GroupSocket.lastTradeCandidate
    rw [h2]
  · intro hb2
    subst hb2
    unfold GroupSocket.lastTradeCandidate
    rw [h2]

def c1xcache : BookCache :=
  [( "A", ⟨[⟨ "0.48", "1" ⟩], [⟨ "0.52", "1" ⟩], some "0.9", none, none⟩)]

def c1xtrade : LastTradePriceEvent := ⟨ "A", "0.7", Side.buy, "2", "123" ⟩

/-- Counterexample to C1 as stated: a last-trade event for a cached book with
both sides non-empty whose spread is well under ten cents (highest bid 0.48,
lowest ask 0.52; the binary64 spread 0.040000000000000036 stays under the
threshold).  The spread rule of the claim picks the midpoint 0.5 as candidate
(which differs from the cached price 0.9), but the algorithm produces no
candidate and emits nothing: the midpoint branch is never taken for a
last-trade trigger. -/
theorem lastTrade_narrowSpread_produces_no_candidate :
    (OrderBookCache.spreadOver c1xcache ( "A" ) GroupSocket.spreadThreshold).map
        (fun r => r.1) = some false
  ∧ (OrderBookCache.midpoint c1xcache ( "A" )).map (fun m => m.1) = some "0.5"
  ∧ (GroupSocket.lastTradeCandidate c1xcache c1xtrade).2 = none
  ∧ (GroupSocket.handleLastTradeEventStep c1xcache c1xtrade).2 = []
  ∧ (OrderBookCache.getBookEntry c1xcache ( "A" )).map (fun e => e.price)
      = some (some "0.9" ) := by
  refine ⟨by decide, by decide, by decide, by decide, by decide⟩

def c1wpev : PriceChangeEvent := ⟨ "A", [⟨ "A", "0.48", "2", Side.buy⟩], "111" ⟩

def c1wcp : BookCache :=
  [( "A", ⟨[⟨ "0.48", "2" ⟩], [⟨ "0.52", "1" ⟩], some "0.9", none, some "0.04" ⟩)]

def c1wcl : BookCache :=
  [( "A", ⟨[⟨ "0.48", "1" ⟩], [⟨ "0.52", "1" ⟩], some "0.9", none, some "0.04" ⟩)]

/-- Witness for C1 (amended) at a concrete cache: a narrow-spread book where
the price-change candidate is the midpoint and the last-trade run yields no
candidate. -/
theorem derivation_candidate_branch_rule_witness :
    (OrderBookCache.upsertPriceChange c1xcache c1wpev).2 = true
  ∧ OrderBookCache.spreadOver (OrderBookCache.upsertPriceChange c1xcache c1wpev).1
      ( "A" ) GroupSocket.spreadThreshold = some (false, c1wcp)
  ∧ OrderBookCache.spreadOver c1xcache ( "A" ) GroupSocket.spreadThreshold
      = some (false, c1wcl)
  ∧ (GroupSocket.priceChangeCandidate c1xcache c1wpev).2
      = (OrderBookCache.midpoint c1wcp ( "A" )).map (fun m => m.1)
  ∧ (GroupSocket.lastTradeCandidate c1xcache c1xtrade).2 = none := by
  have h := derivation_candidate_branch_rule c1xcache c1wpev c1xtrade false false
    c1wcp c1wcl (by decide) (by decide) (by decide)
  exact ⟨by decide, by decide, by decide, h.1 rfl, h.2.2.2 rfl⟩

/-! Manager-set invariants (single-connection variant). -/

namespace WSSubscriptionManager

/-- The invariant the three sets actually maintain: pendingSubscribe is
disjoint from both other sets, and pendingUnsubscribe is contained in the
subscribed set (an id flagged for unsubscription stays subscribed until the
flush sends the frame). -/
def StateWellFormed (s : ManagerState) : Prop :=
  Disjoint s.pendingSubscribeAssetIds s.subscribedAssetIds
  ∧ Disjoint s.pendingSubscribeAssetIds s.pendingUnsubscribeAssetIds
  ∧ s.pendingUnsubscribeAssetIds ⊆ s.subscribedAssetIds

theorem wf_init : StateWellFormed initState := by
  refine ⟨?_, ?_, ?_⟩ <;> simp [initState]

theorem wf_addOne (s : ManagerState) (assetId : String) (h : StateWellFormed s) :
    StateWellFormed (addSubscriptionsOne s assetId) := by
  obtain ⟨h1, h2, h3⟩ := h
  unfold addSubscriptionsOne
  by_cases hs : assetId ∈ s.subscribedAssetIds
  · rw [if_pos hs]
    exact ⟨h1, h2.mono_right (Finset.erase_subset _ _),
      (Finset.erase_subset _ _).trans h3⟩
  · rw [if_neg hs]
    refine ⟨Finset.disjoint_insert_left.mpr ⟨hs, h1⟩,
      Finset.disjoint_insert_left.mpr ⟨Finset.not_mem_erase _ _,
        h2.mono_right (Finset.erase_subset _ _)⟩,
      (Finset.erase_subset _ _).trans h3⟩

theorem wf_removeOne (s : ManagerState) (assetId : String) (h : StateWellFormed s) :
    StateWellFormed (removeSubscriptionsOne s assetId) := by
  obtain ⟨h1, h2, h3⟩ := h
  unfold removeSubscriptionsOne
  by_cases hp : assetId ∈ s.pendingSubscribeAssetIds
  · rw [if_pos hp]
    exact ⟨h1.mono_left (Finset.erase_subset _ _),
      h2.mono_left (Finset.erase_subset _ _), h3⟩
  · rw [if_neg hp]
    by_cases hs : assetId ∈ s.subscribedAssetIds
    · rw [if_pos hs]
      exact ⟨h1, Finset.disjoint_insert_right.mpr ⟨hp, h2⟩,
        Finset.insert_subset_iff.mpr ⟨hs, h3⟩⟩
    · rw [if_neg hs]
      exact ⟨h1, h2, h3⟩

theorem wf_flushUnsub (s : ManagerState) (sendOk : Bool) (h : StateWellFormed s) :
    StateWellFormed (flushUnsubscribePhase s sendOk) := by
  obtain ⟨h1, h2, h3⟩ := h
  unfold flushUnsubscribePhase
  by_cases hc : s.pendingUnsubscribeAssetIds ≠ ∅ ∧ sendOk = true
  · rw [if_pos hc]
    exact ⟨h1.mono_right (Finset.sdiff_subset), by simp, by simp⟩
  · rw [if_neg hc]
    exact ⟨h1, h2, h3⟩

theorem wf_flushSub (s : ManagerState) (sendOk : Bool) (h : StateWellFormed s) :
    StateWellFormed (flushSubscribePhase s sendOk) := by
  obtain ⟨h1, h2, h3⟩ := h
  unfold flushSubscribePhase
  by_cases hc : s.pendingSubscribeAssetIds ≠ ∅ ∧ sendOk = true
  · rw [if_pos hc]
    exact ⟨by simp, by simp, h3.trans Finset.subset_union_left⟩
  · rw [if_neg hc]
    exact ⟨h1, h2, h3⟩

theorem wf_disconnect (s : ManagerState) :
    StateWellFormed (handleDisconnect s) := by
  unfold handleDisconnect
  exact ⟨by simp, by simp, by simp⟩

theorem wf_foldl (f : ManagerState → String → ManagerState)
    (hf : ∀ s a, StateWellFormed s → StateWellFormed (f s a)) :
    ∀ (ids : List String) (s : ManagerState),
      StateWellFormed s → StateWellFormed (ids.foldl f s)
  | [], s, h => h
  | a :: t, s, h => wf_foldl f hf t (f s a) (hf s a h)

/-- Every reachable manager state is well formed. -/
theorem reachable_wf (s : ManagerState) (h : Reachable s) : StateWellFormed s := by
  induction h with
  | init => exact wf_init
  | add s ids _ ih => exact wf_foldl addSubscriptionsOne wf_addOne ids s ih
  | remove s ids _ ih => exact wf_foldl removeSubscriptionsOne wf_removeOne ids s ih
  | flush s c u k _ ih =>
    unfold flushPendingSubscriptions
    by_cases hc : c = false
    · rw [if_pos hc]; exact ih
    · rw [if_neg hc]
      exact wf_flushSub _ _ (wf_flushUnsub _ _ ih)
  | disconnect s _ _ => exact wf_disconnect s
  | clear s _ _ => exact wf_init

/-- addSubscriptions erases every added id from pendingUnsubscribe
unconditionally, before any membership check: the result's pendingUnsubscribe
set is the old one minus the ids of the call. -/
theorem addSubscriptions_pendingUnsub (ids : List String) (s : ManagerState) :
    (addSubscriptions s ids).pendingUnsubscribeAssetIds
      = s.pendingUnsubscribeAssetIds \ ids.toFinset := by
  induction ids generalizing s with
  | nil => simp [addSubscriptions]
  | cons a t ih =>
    have hone : (addSubscriptionsOne s a).pendingUnsubscribeAssetIds
        = s.pendingUnsubscribeAssetIds.erase a := by
      unfold addSubscriptionsOne
      by_cases hs : a ∈ s.subscribedAssetIds
      · rw [if_pos hs]
      · rw [if_neg hs]
    show (addSubscriptions (addSubscriptionsOne s a) t).pendingUnsubscribeAssetIds = _
    rw [ih, hone]
    ext x
    simp [Finset.mem_sdiff, Finset.mem_erase, List.mem_toFinset]
    tauto

end WSSubscriptionManager

/-! Claim C3: mutual exclusion of the three sets.  The actual invariant is
weaker than claimed: an id can be simultaneously subscribed and pending
unsubscribe (removeSubscriptions flags without removing), while
pendingSubscribe is disjoint from the other two sets. -/

/-- C3 (amended).  In every reachable state of the single-connection manager,
pendingSubscribe is disjoint from the subscribed set and from
pendingUnsubscribe, and pendingUnsubscribe is contained in the subscribed set
(so an id can be in those two sets at once); and addSubscriptions removes
every given id from pendingUnsubscribe unconditionally, before its membership
checks on the other sets. -/
theorem pending_sets_invariant_amended (s : ManagerState)
    (h : WSSubscriptionManager.Reachable s) :
    (Disjoint s.pendingSubscribeAssetIds s.subscribedAssetIds
     ∧ Disjoint s.pendingSubscribeAssetIds s.pendingUnsubscribeAssetIds
     ∧ s.pendingUnsubscribeAssetIds ⊆ s.subscribedAssetIds)
  ∧ ∀ ids : List String,
      (WSSubscriptionManager.addSubscriptions s ids).pendingUnsubscribeAssetIds
        = s.pendingUnsubscribeAssetIds \ ids.toFinset := by
  exact ⟨WSSubscriptionManager.reachable_wf s h,
    fun ids => WSSubscriptionManager.addSubscriptions_pendingUnsub ids s⟩

def c3xState : ManagerState :=
  WSSubscriptionManager.removeSubscriptions
    (WSSubscriptionManager.flushPendingSubscriptions
      (WSSubscriptionManager.addSubscriptions WSSubscriptionManager.initState [ "a" ])
      true true true)
    [ "a" ]

/-- Counterexample to C3 as stated: after subscribing to an asset, flushing
(so it becomes subscribed) and then removing it, the id is simultaneously a
member of the subscribed set and of pendingUnsubscribe in a reachable state,
so an identifier can be in more than one of the three sets at once. -/
theorem subscribed_and_pendingUnsubscribe_simultaneous :
    WSSubscriptionManager.Reachable c3xState
  ∧ "a" ∈ c3xState.subscribedAssetIds
  ∧ "a" ∈ c3xState.pendingUnsubscribeAssetIds := by
  refine ⟨?_, by decide, by decide⟩
  exact WSSubscriptionManager.Reachable.remove _ _
    (WSSubscriptionManager.Reachable.flush _ _ _ _
      (WSSubscriptionManager.Reachable.add _ _ WSSubscriptionManager.Reachable.init))

def c3wState : ManagerState :=
  WSSubscriptionManager.removeSubscriptions
    (WSSubscriptionManager.flushPendingSubscriptions
      (WSSubscriptionManager.addSubscriptions WSSubscriptionManager.initState [ "a", "b" ])
      true true true)
    [ "b" ]

/-- Witness for C3 (amended) at a concrete reachable state with subscribed
assets and one pending unsubscription. -/
theorem pending_sets_invariant_amended_witness :
    WSSubscriptionManager.Reachable c3wState
  ∧ (Disjoint c3wState.pendingSubscribeAssetIds c3wState.subscribedAssetIds
     ∧ Disjoint c3wState.pendingSubscribeAssetIds c3wState.pendingUnsubscribeAssetIds
     ∧ c3wState.pendingUnsubscribeAssetIds ⊆ c3wState.subscribedAssetIds)
  ∧ ∀ ids : List String,
      (WSSubscriptionManager.addSubscriptions c3wState ids).pendingUnsubscribeAssetIds
        = c3wState.pendingUnsubscribeAssetIds \ ids.toFinset := by
  have hr : WSSubscriptionManager.Reachable c3wState :=
    WSSubscriptionManager.Reachable.remove _ _
      (WSSubscriptionManager.Reachable.flush _ _ _ _
        (WSSubscriptionManager.Reachable.add _ _ WSSubscriptionManager.Reachable.init))
  have h := pending_sets_invariant_amended c3wState hr
  exact ⟨hr, h.1, h.2⟩

/-! Claim C6: the disconnect handlers re-queue subscribed ids for
re-subscription, skipping the ones flagged pending-unsubscribe, and clear the
subscribed and pendingUnsubscribe sets. -/

/-- C6.  When the disconnect set-logic of handleError/handleClose runs: every
id that was subscribed and not pending-unsubscribe is in pendingSubscribe
afterwards; an id that was pending-unsubscribe is not in pendingSubscribe
afterwards (in any reachable state); and both the subscribed set and
pendingUnsubscribe are empty afterwards. -/
theorem disconnect_requeue_preserves_intent (s : ManagerState) (assetId : String) :
    (assetId ∈ s.subscribedAssetIds → assetId ∉ s.pendingUnsubscribeAssetIds →
        assetId ∈ (WSSubscriptionManager.handleDisconnect s).pendingSubscribeAssetIds)
  ∧ (WSSubscriptionManager.Reachable s → assetId ∈ s.pendingUnsubscribeAssetIds →
        assetId ∉ (WSSubscriptionManager.handleDisconnect s).pendingSubscribeAssetIds)
  ∧ (WSSubscriptionManager.handleDisconnect s).subscribedAssetIds = ∅
  ∧ (WSSubscriptionManager.handleDisconnect s).pendingUnsubscribeAssetIds = ∅ := by
  refine ⟨?_, ?_, rfl, rfl⟩
  · intro hs hu
    unfold WSSubscriptionManager.handleDisconnect
    simp only [Finset.mem_union, Finset.mem_sdiff]
    exact Or.inr ⟨hs, hu⟩
  · intro hr hu
    obtain ⟨_, h2, _⟩ := WSSubscriptionManager.reachable_wf s hr
    unfold WSSubscriptionManager.handleDisconnect
    simp only [Finset.mem_union, Finset.mem_sdiff, not_or]
    exact ⟨Finset.disjoint_right.mp h2 hu, fun hmem => hmem.2 hu⟩

def c6wState : ManagerState :=
  WSSubscriptionManager.removeSubscriptions
    (WSSubscriptionManager.flushPendingSubscriptions
      (WSSubscriptionManager.addSubscriptions WSSubscriptionManager.initState [ "a", "b" ])
      true true true)
    [ "b" ]

/-- Witness for C6: after the disconnect logic runs on a state where a is
purely subscribed and b is subscribed but flagged pending-unsubscribe, a is
re-queued and b is not. -/
theorem disconnect_requeue_preserves_intent_witness :
    "a" ∈ c6wState.subscribedAssetIds
  ∧ "a" ∉ c6wState.pendingUnsubscribeAssetIds
  ∧ "a" ∈ (WSSubscriptionManager.handleDisconnect c6wState).pendingSubscribeAssetIds
  ∧ "b" ∈ c6wState.pendingUnsubscribeAssetIds
  ∧ "b" ∉ (WSSubscriptionManager.handleDisconnect c6wState).pendingSubscribeAssetIds := by
  have hr : WSSubscriptionManager.Reachable c6wState :=
    WSSubscriptionManager.Reachable.remove _ _
      (WSSubscriptionManager.Reachable.flush _ _ _ _
        (WSSubscriptionManager.Reachable.add _ _ WSSubscriptionManager.Reachable.init))
  exact ⟨by decide, by decide,
    (disconnect_requeue_preserves_intent c6wState ( "a" )).1 (by decide) (by decide),
    by decide,
    (disconnect_requeue_preserves_intent c6wState ( "b" )).2.1 hr (by decide)⟩

/-! Claim C10: getAssetIds returns the subscribed-or-pending assets minus the
pending unsubscriptions. -/

/-- C10.  For every manager state, an id is returned by getAssetIds exactly
when it is subscribed or pending-subscribe and not pending-unsubscribe: a
subscribed id flagged pending-unsubscribe is excluded, a merely
pending-subscribe id is included. -/
theorem getAssetIds_characterization (s : ManagerState) (assetId : String) :
    assetId ∈ WSSubscriptionManager.getAssetIds s ↔
      ((assetId ∈ s.subscribedAssetIds ∨ assetId ∈ s.pendingSubscribeAssetIds)
        ∧ assetId ∉ s.pendingUnsubscribeAssetIds) := by
  unfold WSSubscriptionManager.getAssetIds
  simp [Finset.mem_sdiff, Finset.mem_union]

/-! Claim C9: containment of user-callback exceptions.  The single-connection
variant catches everything a user event callback throws; the group variant
awaits the callback with no catch, so the thrown value propagates into the
message-handling path, which corrects the claim. -/

/-- C9 (amended).  Single-connection variant: actOnSubscribedEvents never
propagates anything — for every subscribed set, batch and callback (including
a throwing one) it returns normally — and the public mutators
addSubscriptions and removeSubscriptions also return normally on every input:
a failure of the body is routed to the error callback through
safeCallErrorHandler, which swallows even a throwing error callback.  The
group-variant actOnSubscribedEvents instead returns exactly whatever the
callback returns on the filtered batch, so a thrown value propagates to the
awaiting message handler. -/
theorem callback_exceptions_single_variant_caught :
    (∀ (subscribed : Finset String) (events : List ManagedEvent)
        (action : List ManagedEvent → Except ErrorValue Unit),
      actOnSubscribedEventsSingle subscribed events action = Except.ok ())
  ∧ (∀ (s : ManagerState) (ids : List String)
        (connectResult : Except ErrorValue Unit)
        (onError : ErrorValue → Except ErrorValue Unit),
      (addSubscriptionsPublic s ids connectResult onError).2 = Except.ok ())
  ∧ (∀ (s : ManagerState) (ids : List String),
      (removeSubscriptionsPublic s ids).2 = Except.ok ())
  ∧ (∀ (groups : List WebSocketGroup) (events : List ManagedEvent)
        (action : List ManagedEvent → Except ErrorValue Unit),
      actOnSubscribedEventsGroup groups events action =
        action (events.filter (fun e =>
          groups.any (fun g => decide (e.assetId ∈ g.assetIds))))) := by
  refine ⟨?_, ?_, ?_, ?_⟩
  · intro subscribed events action
    unfold actOnSubscribedEventsSingle
    by_cases h : (events.filter (eventMatchesSubscribed subscribed)).isEmpty = true
    · rw [if_pos h]
    · rw [if_neg h]
      cases action (events.filter (eventMatchesSubscribed subscribed)) with
      | ok u => rfl
      | error e => rfl
  · intro s ids connectResult onError
    cases connectResult with
    | ok u => rfl
    | error e =>
      show safeCallErrorHandler onError e = Except.ok ()
      unfold safeCallErrorHandler
      cases h : onError e with
      | ok u => rfl
      | error e2 => rfl
  · intro s ids
    rfl
  · intro groups events action
    rfl

def c9group : WebSocketGroup := ⟨0, { "a" }, true, WebSocketStatus.alive⟩

def c9event : ManagedEvent :=
  ManagedEvent.lastTrade ⟨ "a", "0.5", Side.buy, "1", "9" ⟩

/-- Counterexample to C9 as stated, refuting both conjuncts for the group
variant: a user event callback that throws is not caught inside
actOnSubscribedEvents — the thrown error is the result of the dispatch
awaited by the message handler (which has no catch either), so it propagates
into the connection's message-handling loop — and the public method
addSubscriptions, whose catch block awaits the error callback with no guard,
lets a throwing error callback propagate to the public caller, so not every
failure is contained in the error-callback report. -/
theorem callback_exception_group_variant_propagates :
    actOnSubscribedEventsGroup [c9group] [c9event]
      (fun _ => Except.error ⟨ "user handler failure" ⟩)
      = Except.error ⟨ "user handler failure" ⟩
  ∧ addSubscriptionsGroupPublic (Except.error ⟨ "connect failed" ⟩)
      (fun _ => Except.error ⟨ "onError failure" ⟩)
      = Except.error ⟨ "onError failure" ⟩ := by
  exact ⟨rfl, rfl⟩

/-! Claim C8: sortedness of the cached book sides.  The sorts order by
numeric price; strictness additionally needs the numeric prices on a side to
be pairwise distinct (the feed sends at most one level per price, but nothing
in the code enforces it: two string-distinct, numerically equal prices such as
0.5 and 0.50 break strict ascent), which corrects the claim. -/

/-- Strict ascent of a book side by numeric price. -/
def StrictAscNumeric (side : List PriceLevel) : Prop :=
  side.Pairwise (fun a b => a.key.blt b.key = true)

/-- Strict descent of a book side by numeric price. -/
def StrictDescNumeric (side : List PriceLevel) : Prop :=
  side.Pairwise (fun a b => b.key.blt a.key = true)

/-- Pairwise numerically distinct prices on a side. -/
def NumericallyDistinct (side : List PriceLevel) : Prop :=
  side.Pairwise (fun a b => (a.key.blt b.key || b.key.blt a.key) = true)

instance (l : List PriceLevel) : Decidable (StrictAscNumeric l) := by
  unfold StrictAscNumeric
  infer_instance

instance (l : List PriceLevel) : Decidable (StrictDescNumeric l) := by
  unfold StrictDescNumeric
  infer_instance

instance (l : List PriceLevel) : Decidable (NumericallyDistinct l) := by
  unfold NumericallyDistinct
  infer_instance

/-- Compatibility of one upsert with strictness of the affected side: the
price string matches an existing level exactly (in-place size update), or the
new level's numeric price differs from every level on the side. -/
def UpsertCompatible (side : List PriceLevel) (pc : PriceChangeItem) : Prop :=
  side.any (fun l => l.price == pc.price) = true
  ∨ ∀ x ∈ side,
      (x.key.blt (PriceLevel.key ⟨pc.price, pc.size⟩)
        || (PriceLevel.key ⟨pc.price, pc.size⟩).blt x.key) = true

theorem distinct_symm {a b : PriceLevel}
    (h : (a.key.blt b.key || b.key.blt a.key) = true) :
    (b.key.blt a.key || a.key.blt b.key) = true := by
  rwa [Bool.or_comm] at h

theorem pairwise_blt_of_sorted_distinct (l : List PriceLevel)
    (hs : l.Pairwise levelLe) (hd : NumericallyDistinct l) : StrictAscNumeric l := by
  refine (hs.and hd).imp ?_
  rintro a b ⟨hle, hne⟩
  rcases Bool.or_eq_true_iff.mp hne with h | h
  · exact h
  · rw [Dec.not_blt_of_ble hle] at h
    exact absurd h (by simp)

theorem pairwise_blt_of_sorted_distinct_desc (l : List PriceLevel)
    (hs : l.Pairwise levelGe) (hd : NumericallyDistinct l) : StrictDescNumeric l := by
  refine (hs.and hd).imp ?_
  rintro a b ⟨hge, hne⟩
  rcases Bool.or_eq_true_iff.mp hne with h | h
  · rw [Dec.not_blt_of_ble hge] at h
    exact absurd h (by simp)
  · exact h

theorem strictAsc_sortAscending (l : List PriceLevel) (hd : NumericallyDistinct l) :
    StrictAscNumeric (sortAscendingInPlace l) := by
  have hs : (sortAscendingInPlace l).Pairwise levelLe :=
    List.sorted_insertionSort levelLe l
  have hperm : (sortAscendingInPlace l).Perm l := List.perm_insertionSort levelLe l
  have hd2 : NumericallyDistinct (sortAscendingInPlace l) :=
    (List.Perm.pairwise_iff (fun h => distinct_symm h) hperm).mpr hd
  exact pairwise_blt_of_sorted_distinct _ hs hd2

theorem strictDesc_sortDescending (l : List PriceLevel) (hd : NumericallyDistinct l) :
    StrictDescNumeric (sortDescendingInPlace l) := by
  have hs : (sortDescendingInPlace l).Pairwise levelGe :=
    List.sorted_insertionSort levelGe l
  have hperm : (sortDescendingInPlace l).Perm l := List.perm_insertionSort levelGe l
  have hd2 : NumericallyDistinct (sortDescendingInPlace l) :=
    (List.Perm.pairwise_iff (fun h => distinct_symm h) hperm).mpr hd
  exact pairwise_blt_of_sorted_distinct_desc _ hs hd2

theorem all_rel_getLast {α : Type} {R : α → α → Prop} (hrefl : ∀ a, R a a) :
    ∀ (l : List α) (b : α), l.Pairwise R → l.getLast? = some b → ∀ x ∈ l, R x b := by
  intro l
  induction l with
  | nil => intro b _ hlast; simp at hlast
  | cons a t ih =>
    intro b hp hlast x hx
    cases t with
    | nil =>
      simp at hlast hx
      subst hlast
      subst hx
      exact hrefl _
    | cons a2 t2 =>
      rw [List.getLast?_cons_cons] at hlast
      rcases List.mem_cons.mp hx with hxa | hxt
      · subst hxa
        exact (List.pairwise_cons.mp hp).1 b (List.mem_of_mem_getLast? hlast)
      · exact ih b (List.pairwise_cons.mp hp).2 hlast x hxt

theorem ble_refl (d : Dec) : d.ble d = true := (Dec.ble_iff d d).mpr le_rfl

theorem blt_to_ble {a b : PriceLevel} (h : a.key.blt b.key = true) :
    a.key.ble b.key = true :=
  (Dec.ble_iff a.key b.key).mpr (le_of_lt ((Dec.blt_iff a.key b.key).mp h))

theorem strictAsc_distinct (l : List PriceLevel) (h : StrictAscNumeric l) :
    NumericallyDistinct l :=
  h.imp (fun hab => by rw [Bool.or_eq_true_iff]; exact Or.inl hab)

theorem strictDesc_distinct (l : List PriceLevel) (h : StrictDescNumeric l) :
    NumericallyDistinct l :=
  h.imp (fun hab => by rw [Bool.or_eq_true_iff]; exact Or.inr hab)

theorem map_key_updateSize (l : List PriceLevel) (p s : String) :
    (OrderBookCache.updateSizeAtFirstMatch l p s).map PriceLevel.key
      = l.map PriceLevel.key := by
  induction l with
  | nil => rfl
  | cons a t ih =>
    unfold OrderBookCache.updateSizeAtFirstMatch
    by_cases hk : (a.price == p) = true
    · rw [if_pos hk]
      rfl
    · rw [if_neg hk]
      simp only [List.map_cons, ih]

theorem strictAsc_updateSize (l : List PriceLevel) (p s : String)
    (h : StrictAscNumeric l) :
    StrictAscNumeric (OrderBookCache.updateSizeAtFirstMatch l p s) := by
  unfold StrictAscNumeric at h ⊢
  rw [← List.pairwise_map (f := PriceLevel.key) (R := fun d e => d.blt e = true)] at h ⊢
  rw [map_key_updateSize]
  exact h

theorem strictDesc_updateSize (l : List PriceLevel) (p s : String)
    (h : StrictDescNumeric l) :
    StrictDescNumeric (OrderBookCache.updateSizeAtFirstMatch l p s) := by
  unfold StrictDescNumeric at h ⊢
  rw [← List.pairwise_map (f := PriceLevel.key) (R := fun d e => e.blt d = true)] at h ⊢
  rw [map_key_updateSize]
  exact h

/-- C8 (amended).  After replaceBook the stored entry's bids are the
ascending sort of the event bids and its asks the descending sort of the event
asks; when the numeric prices on a side are pairwise distinct the side is
strictly monotone, so the highest bid is the last element of bids (every bid
is numerically at most the last) and the lowest ask is the last element of
asks (the last is numerically at most every ask).  An upsert preserves strict
monotonicity of both sides provided the changed price either matches an
existing level's price string exactly or is numerically fresh on its side. -/
theorem book_sides_sorted_amended :
    (∀ (c : BookCache) (ev : BookEvent),
      NumericallyDistinct ev.bids → NumericallyDistinct ev.asks →
      ∃ entry, OrderBookCache.getBookEntry (OrderBookCache.replaceBook c ev) ev.asset_id
          = some entry
        ∧ entry.bids = sortAscendingInPlace ev.bids
        ∧ entry.asks = sortDescendingInPlace ev.asks
        ∧ StrictAscNumeric entry.bids
        ∧ StrictDescNumeric entry.asks
        ∧ (∀ lb, entry.bids.getLast? = some lb →
            ∀ x ∈ entry.bids, x.key.ble lb.key = true)
        ∧ (∀ la, entry.asks.getLast? = some la →
            ∀ x ∈ entry.asks, la.key.ble x.key = true))
  ∧ (∀ (book : BookEntry) (pc : PriceChangeItem),
      StrictAscNumeric book.bids → StrictDescNumeric book.asks →
      (pc.side = Side.buy → UpsertCompatible book.bids pc) →
      (pc.side = Side.sell → UpsertCompatible book.asks pc) →
      StrictAscNumeric (OrderBookCache.applyPriceChange book pc).bids
        ∧ StrictDescNumeric (OrderBookCache.applyPriceChange book pc).asks) := by
  constructor
  · intro c ev hdb hda
    refine ⟨_, getBookEntry_setEntry_self _ _ _, rfl, rfl, ?_, ?_, ?_, ?_⟩
    · exact strictAsc_sortAscending ev.bids hdb
    · exact strictDesc_sortDescending ev.asks hda
    · intro lb hlast x hx
      have hble : (sortAscendingInPlace ev.bids).Pairwise
          (fun a b : PriceLevel => a.key.ble b.key = true) :=
        (strictAsc_sortAscending ev.bids hdb).imp (fun h => blt_to_ble h)
      exact all_rel_getLast (R := fun x y : PriceLevel => x.key.ble y.key = true)
        (fun a => ble_refl a.key) _ lb hble hlast x hx
    · intro la hlast x hx
      have hble : (sortDescendingInPlace ev.asks).Pairwise
          (fun a b : PriceLevel => b.key.ble a.key = true) :=
        (strictDesc_sortDescending ev.asks hda).imp (fun h => blt_to_ble h)
      exact all_rel_getLast (R := fun x y : PriceLevel => y.key.ble x.key = true)
        (fun a => ble_refl a.key) _ la hble hlast x hx
  · intro book pc hb ha hcb hcs
    cases hside : pc.side with
    | buy =>
      have hcompat := hcb hside
      unfold OrderBookCache.applyPriceChange
      rw [hside]
      by_cases hmatch : book.bids.any (fun l => l.price == pc.price) = true
      · rw [if_pos hmatch]
        exact ⟨strictAsc_updateSize book.bids pc.price pc.size hb, ha⟩
      · rw [if_neg hmatch]
        rcases hcompat with hm | hfresh
        · exact absurd hm hmatch
        · refine ⟨?_, ha⟩
          apply strictAsc_sortAscending
          rw [NumericallyDistinct, List.pairwise_append]
          refine ⟨strictAsc_distinct book.bids hb, List.pairwise_singleton _ _, ?_⟩
          intro x hx b hb2
          rcases List.mem_singleton.mp hb2 with rfl
          exact hfresh x hx
    | sell =>
      have hcompat := hcs hside
      unfold OrderBookCache.applyPriceChange
      rw [hside]
      by_cases hmatch : book.asks.any (fun l => l.price == pc.price) = true
      · rw [if_pos hmatch]
        exact ⟨hb, strictDesc_updateSize book.asks pc.price pc.size ha⟩
      · rw [if_neg hmatch]
        rcases hcompat with hm | hfresh
        · exact absurd hm hmatch
        · refine ⟨hb, ?_⟩
          apply strictDesc_sortDescending
          rw [NumericallyDistinct, List.pairwise_append]
          refine ⟨strictDesc_distinct book.asks ha, List.pairwise_singleton _ _, ?_⟩
          intro x hx b hb2
          rcases List.mem_singleton.mp hb2 with rfl
          exact hfresh x hx

def c8event : BookEvent :=
  ⟨ "A", "1", [⟨ "0.5", "1" ⟩, ⟨ "0.50", "2" ⟩], [⟨ "0.9", "1" ⟩] ⟩

/-- Counterexample to C8 as stated: a book event carrying two bids whose price
strings differ but denote the same number (0.5 and 0.50).  replaceBook stores
them both (the upsert's exact-string matching would also keep both), and the
stored bids sequence is not strictly ascending by numeric price. -/
theorem replaceBook_equal_numeric_prices_not_strict :
    (OrderBookCache.getBookEntry (OrderBookCache.replaceBook [] c8event) ( "A" )).map
        (fun e => e.bids)
      = some [⟨ "0.5", "1" ⟩, ⟨ "0.50", "2" ⟩]
  ∧ ¬ StrictAscNumeric [⟨ "0.5", "1" ⟩, ⟨ "0.50", "2" ⟩] := by
  refine ⟨by decide, by decide⟩

def c8wev : BookEvent :=
  ⟨ "B", "2", [⟨ "0.3", "1" ⟩, ⟨ "0.1", "1" ⟩, ⟨ "0.2", "1" ⟩],
    [⟨ "0.7", "1" ⟩, ⟨ "0.9", "1" ⟩] ⟩

def c8wbook : BookEntry :=
  ⟨[⟨ "0.1", "1" ⟩, ⟨ "0.2", "1" ⟩, ⟨ "0.3", "1" ⟩],
   [⟨ "0.9", "1" ⟩, ⟨ "0.7", "1" ⟩], none, none, none⟩

def c8wpc : PriceChangeItem := ⟨ "B", "0.25", "5", Side.buy⟩

/-- Witness for C8 (amended): a snapshot with distinct prices yields strictly
sorted sides, and an upsert of a numerically fresh bid preserves them. -/
theorem book_sides_sorted_amended_witness :
    NumericallyDistinct c8wev.bids ∧ NumericallyDistinct c8wev.asks
  ∧ (∃ entry,
      OrderBookCache.getBookEntry (OrderBookCache.replaceBook [] c8wev) c8wev.asset_id
        = some entry
      ∧ StrictAscNumeric entry.bids ∧ StrictDescNumeric entry.asks)
  ∧ StrictAscNumeric c8wbook.bids ∧ StrictDescNumeric c8wbook.asks
  ∧ StrictAscNumeric (OrderBookCache.applyPriceChange c8wbook c8wpc).bids
  ∧ StrictDescNumeric (OrderBookCache.applyPriceChange c8wbook c8wpc).asks := by
  have h := book_sides_sorted_amended
  obtain ⟨entry, he, _, _, hasc, hdesc, _, _⟩ :=
    h.1 [] c8wev (by decide) (by decide)
  have h2 := h.2 c8wbook c8wpc (by decide) (by decide)
    (fun _ => Or.inr (by decide)) (fun hs => by simp [c8wpc] at hs)
  exact ⟨by decide, by decide, ⟨entry, he, hasc, hdesc⟩, by decide, by decide,
    h2.1, h2.2⟩

/-! Claim C5: the reconnect-and-cleanup sweep. -/

namespace GroupRegistry

/-- Effect of the first sweep pass on one group that stays in the list. -/
def sweepMark (g : WebSocketGroup) : WebSocketGroup :=
  if g.assetIds.card = 0 then g
  else
    match g.status with
    | WebSocketStatus.dead => { g with wsClient := false }
    | WebSocketStatus.cleanup => { g with assetIds := ∅ }
    | _ => g

/-- Removal criterion of the sweep: empty member set or CLEANUP status. -/
def isSweepRemoved (g : WebSocketGroup) : Bool :=
  g.assetIds.card == 0 || g.status == WebSocketStatus.cleanup

/-- Reconnection criterion of the sweep: non-empty member set with DEAD or
PENDING status. -/
def isSweepReconnect (g : WebSocketGroup) : Bool :=
  g.assetIds.card != 0
    && (g.status == WebSocketStatus.dead || g.status == WebSocketStatus.pending)

theorem sweepMark_groupId (g : WebSocketGroup) : (sweepMark g).groupId = g.groupId := by
  unfold sweepMark
  by_cases h : g.assetIds.card = 0
  · rw [if_pos h]
  · rw [if_neg h]
    cases hst : g.status <;> simp [hst]

theorem sweepMark_status (g : WebSocketGroup) : (sweepMark g).status = g.status := by
  unfold sweepMark
  by_cases h : g.assetIds.card = 0
  · rw [if_pos h]
  · rw [if_neg h]
    cases hst : g.status <;> simp [hst]

theorem sweep_foldl (gs : List WebSocketGroup) : ∀ acc : SweepAcc,
    gs.foldl sweepGroup acc =
      ⟨acc.processed ++ gs.map sweepMark,
       acc.toRemove ++ (gs.filter isSweepRemoved).map (fun g => g.groupId),
       acc.reconnectIds ++ (gs.filter isSweepReconnect).map (fun g => g.groupId)⟩ := by
  induction gs with
  | nil =>
    intro acc
    cases acc
    simp
  | cons g t ih =>
    intro acc
    rw [List.foldl_cons, ih]
    have hgacc : sweepGroup acc g =
        ⟨acc.processed ++ [sweepMark g],
         acc.toRemove ++ (if isSweepRemoved g = true then [g.groupId] else []),
         acc.reconnectIds ++ (if isSweepReconnect g = true then [g.groupId] else [])⟩ := by
      unfold sweepGroup sweepMark isSweepRemoved isSweepReconnect
      by_cases h0 : g.assetIds.card = 0
      · simp [h0]
      · cases hst : g.status <;> simp [h0, hst]
    rw [hgacc]
    cases hrem : isSweepRemoved g <;> cases hrec : isSweepReconnect g <;>
      simp [List.filter_cons, hrem, hrec]

theorem contains_ids_iff (l : List Nat) (a : Nat) : l.contains a = true ↔ a ∈ l :=
  List.elem_iff

theorem sweep_run (reg : GroupRegistryState) :
    getGroupsToReconnectAndCleanup reg =
      ⟨⟨(reg.groups.map sweepMark).filter (fun g =>
            !(((reg.groups.filter isSweepRemoved).map (fun h => h.groupId)).contains g.groupId)),
        reg.nextId⟩,
       (reg.groups.filter isSweepReconnect).map (fun g => g.groupId),
       ((reg.groups.map sweepMark).filter (fun g =>
            ((reg.groups.filter isSweepRemoved).map (fun h => h.groupId)).contains g.groupId)).map
          (fun g => { g with wsClient := false })⟩ := by
  unfold getGroupsToReconnectAndCleanup
  rw [sweep_foldl reg.groups ⟨[], [], []⟩]
  simp

theorem mem_removeIds_iff (gs : List WebSocketGroup)
    (hnd : (gs.map (fun g => g.groupId)).Nodup) (g : WebSocketGroup) (hg : g ∈ gs) :
    ((gs.filter isSweepRemoved).map (fun h => h.groupId)).contains g.groupId
      = isSweepRemoved g := by
  by_cases hrem : isSweepRemoved g = true
  · rw [hrem]
    exact (contains_ids_iff _ _).mpr
      (List.mem_map.mpr ⟨g, List.mem_filter.mpr ⟨hg, hrem⟩, rfl⟩)
  · have hrem2 : isSweepRemoved g = false := by simpa using hrem
    rw [hrem2]
    rw [← Bool.not_eq_true]
    intro hc
    obtain ⟨h, hf, hid⟩ := List.mem_map.mp ((contains_ids_iff _ _).mp hc)
    obtain ⟨hhgs, hhrem⟩ := List.mem_filter.mp hf
    have heq : h = g := List.inj_on_of_nodup_map hnd hhgs hg hid
    subst heq
    rw [hhrem] at hrem2
    exact Bool.true_eq_false.mp hrem2

theorem mem_remaining_ids_iff (reg : GroupRegistryState)
    (hnd : (reg.groups.map (fun g => g.groupId)).Nodup)
    (g : WebSocketGroup) (hg : g ∈ reg.groups) :
    (g.groupId ∈ (getGroupsToReconnectAndCleanup reg).registry.groups.map
        (fun h => h.groupId))
      ↔ isSweepRemoved g = false := by
  rw [sweep_run]
  simp only [List.mem_map]
  constructor
  · rintro ⟨m, hm, hid⟩
    obtain ⟨hmm, hkeep⟩ := List.mem_filter.mp hm
    obtain ⟨h, hhgs, rfl⟩ := List.mem_map.mp hmm
    rw [sweepMark_groupId] at hid
    have heq : h = g := List.inj_on_of_nodup_map hnd hhgs hg hid
    subst heq
    rw [sweepMark_groupId, mem_removeIds_iff reg.groups hnd h hhgs] at hkeep
    simpa using hkeep
  · intro hrem
    refine ⟨sweepMark g,
      List.mem_filter.mpr ⟨List.mem_map.mpr ⟨g, hg, rfl⟩, ?_⟩, sweepMark_groupId g⟩
    rw [sweepMark_groupId, mem_removeIds_iff reg.groups hnd g hg, hrem]
    rfl

end GroupRegistry

theorem filter_map_map {α β γ : Type} (l : List α) (f : α → β) (p : β → Bool)
    (q : α → Bool) (g1 : β → γ) (g2 : α → γ)
    (hp : ∀ a ∈ l, p (f a) = q a) (hg : ∀ a ∈ l, g1 (f a) = g2 a) :
    ((l.map f).filter p).map g1 = (l.filter q).map g2 := by
  induction l with
  | nil => rfl
  | cons a t ih =>
    have hpa := hp a (List.mem_cons_self a t)
    have hga := hg a (List.mem_cons_self a t)
    have iht := ih (fun x hx => hp x (List.mem_cons_of_mem a hx))
      (fun x hx => hg x (List.mem_cons_of_mem a hx))
    simp only [List.map_cons, List.filter_cons, hpa]
    by_cases hq : q a = true
    · simp only [if_pos hq, List.map_cons, hga, iht]
    · simp only [if_neg hq, iht]

/-- C5 (amended).  For a registry whose group ids are distinct (the uuid
guarantee): the sweep removes exactly the groups with an empty member set or
CLEANUP status (a group id survives iff neither holds — in particular an
ALIVE group with an emptied member set is removed, which corrects the claim);
every removed group is returned disconnected (transport handle closed) and the
removed groups are exactly those satisfying the removal criterion; the
returned reconnect ids are exactly the ids of the remaining groups whose
status is DEAD or PENDING; and every non-empty ALIVE group is left in the
registry unchanged. -/
theorem sweep_spec_amended (reg : GroupRegistryState)
    (hnd : (reg.groups.map (fun g => g.groupId)).Nodup) :
    (∀ g ∈ reg.groups,
      (g.assetIds = ∅ ∨ g.status = WebSocketStatus.cleanup) ↔
        g.groupId ∉ (GroupRegistry.getGroupsToReconnectAndCleanup reg).registry.groups.map
          (fun h => h.groupId))
  ∧ (∀ h ∈ (GroupRegistry.getGroupsToReconnectAndCleanup reg).removedGroups,
      h.wsClient = false)
  ∧ (GroupRegistry.getGroupsToReconnectAndCleanup reg).removedGroups.map
        (fun h => h.groupId)
      = (reg.groups.filter GroupRegistry.isSweepRemoved).map (fun h => h.groupId)
  ∧ (GroupRegistry.getGroupsToReconnectAndCleanup reg).reconnectIds
      = ((GroupRegistry.getGroupsToReconnectAndCleanup reg).registry.groups.filter
          (fun g => g.status == WebSocketStatus.dead
            || g.status == WebSocketStatus.pending)).map (fun h => h.groupId)
  ∧ (∀ g ∈ reg.groups, g.status = WebSocketStatus.alive → g.assetIds ≠ ∅ →
      g ∈ (GroupRegistry.getGroupsToReconnectAndCleanup reg).registry.groups) := by
  refine ⟨?_, ?_, ?_, ?_, ?_⟩
  · intro g hg
    have miff := GroupRegistry.mem_remaining_ids_iff reg hnd g hg
    have hbool : GroupRegistry.isSweepRemoved g = true ↔
        (g.assetIds = ∅ ∨ g.status = WebSocketStatus.cleanup) := by
      unfold GroupRegistry.isSweepRemoved
      simp [Finset.card_eq_zero]
    constructor
    · intro hp hmem
      have hf := miff.mp hmem
      rw [hbool.mpr hp] at hf
      exact Bool.true_eq_false.mp hf
    · intro hn
      cases hb : GroupRegistry.isSweepRemoved g with
      | false => exact absurd (miff.mpr hb) hn
      | true => exact hbool.mp hb
  · intro h hh
    rw [GroupRegistry.sweep_run] at hh
    obtain ⟨x, _, rfl⟩ := List.mem_map.mp hh
    rfl
  · rw [GroupRegistry.sweep_run]
    simp only [List.map_map]
    rw [filter_map_map reg.groups GroupRegistry.sweepMark _ GroupRegistry.isSweepRemoved
      _ (fun h => h.groupId) ?hp ?hg]
    case hp =>
      intro a ha
      show (((reg.groups.filter GroupRegistry.isSweepRemoved).map
          (fun h => h.groupId)).contains (GroupRegistry.sweepMark a).groupId)
        = GroupRegistry.isSweepRemoved a
      rw [GroupRegistry.sweepMark_groupId,
        GroupRegistry.mem_removeIds_iff reg.groups hnd a ha]
    case hg =>
      intro a ha
      simp [GroupRegistry.sweepMark_groupId]
  · rw [GroupRegistry.sweep_run]
    rw [List.filter_filter]
    rw [filter_map_map reg.groups GroupRegistry.sweepMark _ GroupRegistry.isSweepReconnect
      (fun h => h.groupId) (fun h => h.groupId) ?hp2 (fun a ha => GroupRegistry.sweepMark_groupId a)]
    case hp2 =>
      intro a ha
      show (((GroupRegistry.sweepMark a).status == WebSocketStatus.dead
            || (GroupRegistry.sweepMark a).status == WebSocketStatus.pending)
          && !(((reg.groups.filter GroupRegistry.isSweepRemoved).map
              (fun h => h.groupId)).contains (GroupRegistry.sweepMark a).groupId))
        = GroupRegistry.isSweepReconnect a
      rw [GroupRegistry.sweepMark_groupId, GroupRegistry.sweepMark_status,
        GroupRegistry.mem_removeIds_iff reg.groups hnd a ha]
      unfold GroupRegistry.isSweepRemoved GroupRegistry.isSweepReconnect
      cases hst : a.status <;> cases hc : (a.assetIds.card == 0) <;>
        simp only [bne, hc] <;> decide
  · intro g hg hal hne
    rw [GroupRegistry.sweep_run]
    have hm : GroupRegistry.sweepMark g = g := by
      unfold GroupRegistry.sweepMark
      rw [if_neg (by simpa [Finset.card_eq_zero] using hne), hal]
    have hrem : GroupRegistry.isSweepRemoved g = false := by
      unfold GroupRegistry.isSweepRemoved
      simp [hal, Finset.card_eq_zero]
      exact hne
    refine List.mem_filter.mpr ⟨List.mem_map.mpr ⟨g, hg, hm⟩, ?_⟩
    rw [GroupRegistry.mem_removeIds_iff reg.groups hnd g hg, hrem]
    rfl

def c5xgroup : WebSocketGroup := ⟨0, ∅, true, WebSocketStatus.alive⟩

def c5xreg : GroupRegistryState := ⟨[c5xgroup], 1⟩

/-- Counterexample to C5 as stated: a registry holding one ALIVE group whose
member set is empty (reachable, since removeAssets empties member sets without
touching the status).  The sweep removes it, so not every ALIVE group is left
unchanged in the registry. -/
theorem sweep_removes_empty_alive_group :
    c5xgroup ∈ c5xreg.groups
  ∧ c5xgroup.status = WebSocketStatus.alive
  ∧ (GroupRegistry.getGroupsToReconnectAndCleanup c5xreg).registry.groups = [] := by
  refine ⟨by decide, rfl, by decide⟩

def c5wreg : GroupRegistryState :=
  ⟨[⟨0, { "a" }, true, WebSocketStatus.alive⟩,
    ⟨1, { "b" }, true, WebSocketStatus.dead⟩,
    ⟨2, ∅, false, WebSocketStatus.pending⟩,
    ⟨3, { "c" }, true, WebSocketStatus.cleanup⟩], 4⟩

/-- Witness for C5 (amended) at a four-group registry exercising every
status. -/
theorem sweep_spec_amended_witness :
    (c5wreg.groups.map (fun g => g.groupId)).Nodup
  ∧ (GroupRegistry.getGroupsToReconnectAndCleanup c5wreg).reconnectIds
      = ((GroupRegistry.getGroupsToReconnectAndCleanup c5wreg).registry.groups.filter
          (fun g => g.status == WebSocketStatus.dead
            || g.status == WebSocketStatus.pending)).map (fun h => h.groupId)
  ∧ (∀ g ∈ c5wreg.groups, g.status = WebSocketStatus.alive → g.assetIds ≠ ∅ →
      g ∈ (GroupRegistry.getGroupsToReconnectAndCleanup c5wreg).registry.groups) := by
  have h := sweep_spec_amended c5wreg (by decide)
  exact ⟨by decide, h.2.2.2.1, h.2.2.2.2⟩

/-! Claim C4: addAssets. -/

namespace GroupRegistry

theorem chunkList_cons_eq {α : Type} (k : Nat) (x : α) (xs : List α) :
    chunkList (k + 1) (x :: xs) =
      (x :: xs).take (k + 1) :: chunkList (k + 1) (xs.drop k) :=
  chunkList.eq_3 k x xs

theorem chunkList_flatten {α : Type} : ∀ (k : Nat) (l : List α), 0 < k →
    (chunkList k l).flatten = l := by
  intro k l
  induction k, l using chunkList.induct with
  | case1 k =>
    intro hk
    simp [chunkList.eq_1]
  | case2 h t =>
    intro hk
    omega
  | case3 k x xs ih =>
    intro hk
    rw [chunkList_cons_eq, List.flatten_cons, ih (by omega)]
    rw [show xs.drop k = (x :: xs).drop (k + 1) from (List.drop_succ_cons).symm]
    exact List.take_append_drop _ _

theorem chunkList_sizes {α : Type} : ∀ (k : Nat) (l : List α), 0 < k →
    ∀ c ∈ chunkList k l, c.length ≤ k := by
  intro k l
  induction k, l using chunkList.induct with
  | case1 k =>
    intro hk c hc
    simp [chunkList.eq_1] at hc
  | case2 h t =>
    intro hk
    omega
  | case3 k x xs ih =>
    intro hk c hc
    rw [chunkList_cons_eq] at hc
    rcases List.mem_cons.mp hc with rfl | hc2
    · simpa using List.length_take_le (k + 1) (x :: xs)
    · exact ih (by omega) c hc2

theorem chunkList_count {α : Type} : ∀ (k : Nat) (l : List α), 0 < k →
    (chunkList k l).length = (l.length + k - 1) / k := by
  intro k l
  induction k, l using chunkList.induct with
  | case1 k =>
    intro hk
    have h1 : (([] : List α).length + k - 1) = k - 1 := by simp
    rw [chunkList.eq_1, h1, Nat.div_eq_of_lt (by omega)]
    rfl
  | case2 h t =>
    intro hk
    omega
  | case3 k x xs ih =>
    intro hk
    rw [chunkList_cons_eq, List.length_cons, ih (by omega), List.length_drop]
    have hkk : k + 1 - 1 = k := by omega
    by_cases hnk : k ≤ xs.length
    · have h1 : xs.length - k + (k + 1) - 1 = xs.length := by omega
      have h2 : (x :: xs).length + (k + 1) - 1 = xs.length + (k + 1) := by
        simp [List.length_cons]
        omega
      rw [h1, h2, Nat.add_div_right _ (by omega)]
    · have h1 : xs.length - k + (k + 1) - 1 = k := by omega
      have h2 : (x :: xs).length + (k + 1) - 1 = xs.length + (k + 1) := by
        simp [List.length_cons]
        omega
      rw [h1, h2, Nat.add_div_right _ (by omega), Nat.div_eq_of_lt (by omega),
        Nat.div_eq_of_lt (by omega)]

theorem mkGroups_length (n : Nat) (L : List (List String)) :
    (mkGroups n L).length = L.length := by
  induction L generalizing n with
  | nil => rfl
  | cons ch rest ih =>
    unfold mkGroups
    rw [List.length_cons, List.length_cons, ih]

theorem mem_mkGroups (n : Nat) (L : List (List String)) :
    ∀ g ∈ mkGroups n L,
      g.status = WebSocketStatus.pending ∧ g.wsClient = false
      ∧ n ≤ g.groupId ∧ g.groupId < n + L.length
      ∧ ∃ ch ∈ L, g.assetIds = ch.toFinset := by
  induction L generalizing n with
  | nil => intro g hg; simp [mkGroups] at hg
  | cons ch rest ih =>
    intro g hg
    unfold mkGroups at hg
    rcases List.mem_cons.mp hg with rfl | hg2
    · exact ⟨rfl, rfl, le_refl n, by simp only [List.length_cons]; omega,
        ch, List.mem_cons_self ch rest, rfl⟩
    · obtain ⟨h1, h2, h3, h4, ch2, hch2, h5⟩ := ih (n + 1) g hg2
      exact ⟨h1, h2, by omega, by simp only [List.length_cons]; omega,
        ch2, List.mem_cons_of_mem ch hch2, h5⟩

theorem mkGroups_of_chunk (n : Nat) (L : List (List String)) :
    ∀ ch ∈ L, ∃ g ∈ mkGroups n L, g.assetIds = ch.toFinset := by
  induction L generalizing n with
  | nil => intro ch hch; simp at hch
  | cons c rest ih =>
    intro ch hch
    unfold mkGroups
    rcases List.mem_cons.mp hch with rfl | hch2
    · exact ⟨⟨n, ch.toFinset, false, WebSocketStatus.pending⟩,
        List.mem_cons_self _ _, rfl⟩
    · obtain ⟨g, hg, he⟩ := ih (n + 1) ch hch2
      exact ⟨g, List.mem_cons_of_mem _ hg, he⟩

theorem mkGroups_pairwise_disjoint (n : Nat) (L : List (List String))
    (hL : List.Pairwise List.Disjoint L) :
    List.Pairwise (fun g h => Disjoint g.assetIds h.assetIds) (mkGroups n L) := by
  induction L generalizing n with
  | nil => exact List.Pairwise.nil
  | cons ch rest ih =>
    obtain ⟨hhead, htail⟩ := List.pairwise_cons.mp hL
    unfold mkGroups
    refine List.pairwise_cons.mpr ⟨?_, ih (n + 1) htail⟩
    intro g hg
    obtain ⟨_, _, _, _, ch2, hch2, he⟩ := mem_mkGroups (n + 1) rest g hg
    rw [he]
    show Disjoint ch.toFinset ch2.toFinset
    exact List.disjoint_toFinset_iff_disjoint.mpr (hhead ch2 hch2)

theorem find_by_id_of_nodup (gs : List WebSocketGroup)
    (hnd : (gs.map (fun g => g.groupId)).Nodup) (g : WebSocketGroup) (hg : g ∈ gs) :
    gs.find? (fun h => h.groupId == g.groupId) = some g := by
  induction gs with
  | nil => simp at hg
  | cons a t ih =>
    rw [List.map_cons, List.nodup_cons] at hnd
    rcases List.mem_cons.mp hg with rfl | hgt
    · exact List.find?_cons_of_pos _ (by simp)
    · have hne : (a.groupId == g.groupId) = false := by
        rw [beq_eq_false_iff_ne]
        intro he
        exact hnd.1 (he ▸ List.mem_map.mpr ⟨g, hgt, rfl⟩)
      rw [List.find?_cons_of_neg _ (by simp [hne])]
      exact ih hnd.2 hgt

theorem markCleanupFirst_eq_map (gs : List WebSocketGroup)
    (hnd : (gs.map (fun g => g.groupId)).Nodup) (gid : Nat) (g : WebSocketGroup)
    (hg : g ∈ gs) (hgid : g.groupId = gid) :
    markCleanupFirst gs gid = gs.map (fun h =>
      if h.groupId = gid then { h with assetIds := ∅, status := WebSocketStatus.cleanup }
      else h) := by
  induction gs with
  | nil => rfl
  | cons a t ih =>
    rw [List.map_cons, List.nodup_cons] at hnd
    unfold markCleanupFirst
    rcases List.mem_cons.mp hg with rfl | hgt
    · rw [if_pos hgid, List.map_cons, if_pos hgid]
      have ht : t.map (fun h =>
          if h.groupId = gid then
            { h with assetIds := ∅, status := WebSocketStatus.cleanup }
          else h) = t := by
        conv_rhs => rw [← List.map_id t]
        apply List.map_congr_left
        intro x hx
        rw [if_neg]
        · rfl
        · intro hxe
          exact hnd.1 ((hxe.trans hgid.symm) ▸ List.mem_map.mpr ⟨x, hx, rfl⟩)
      rw [ht]
    · have hane : ¬(a.groupId = gid) := by
        intro he
        refine hnd.1 ?_
        rw [he, ← hgid]
        exact List.mem_map.mpr ⟨g, hgt, rfl⟩
      rw [if_neg hane, List.map_cons, if_neg hane, ih hnd.2 hgt]

theorem findGroupWithCapacity_some (gs : List WebSocketGroup)
    (len maxPerWS : Nat) (gid : Nat)
    (hfind : findGroupWithCapacity gs len maxPerWS = some gid) :
    ∃ g ∈ gs, g.groupId = gid ∧ g.assetIds.card ≠ 0
      ∧ g.assetIds.card + len ≤ maxPerWS := by
  unfold findGroupWithCapacity at hfind
  cases hf : gs.find? (fun g =>
      decide (g.assetIds.card ≠ 0 ∧ g.assetIds.card + len ≤ maxPerWS)) with
  | none => rw [hf] at hfind; simp at hfind
  | some g =>
    rw [hf] at hfind
    have hmem := List.mem_of_find?_eq_some hf
    have hprop := List.find?_some hf
    rw [decide_eq_true_iff] at hprop
    refine ⟨g, hmem, ?_, hprop.1, hprop.2⟩
    simpa using hfind

/-- The groups created by the chunking branch of addAssets. -/
def createdGroups (reg : GroupRegistryState) (assetIds : List String)
    (maxPerWS : Nat) : List WebSocketGroup :=
  mkGroups reg.nextId (chunkList maxPerWS (newIdsOf reg assetIds))

end GroupRegistry

/-- C4 (amended).  For a call addAssets(ids, maxPerConnection) with
maxPerConnection positive, the remaining new ids pairwise distinct (the claim
fails when the input repeats an id, see the counterexample), distinct group
ids and a fresh id counter: already-present ids are filtered out and, if none
remain, the registry is unchanged and the empty list returned; if some
existing non-empty group has capacity, exactly one new PENDING group is
created holding the union of that group's members and the new ids, the old
group is marked CLEANUP with its member set emptied, and only the new group's
fresh id is returned; otherwise one new PENDING group is created per chunk of
at most maxPerConnection new ids, ceil(N/maxPerConnection) groups in total,
their member sets partition the new ids (pairwise disjoint, union exactly the
new ids), and exactly the created groups' fresh ids are returned. -/
theorem addAssets_spec_amended (reg : GroupRegistryState) (ids : List String)
    (maxPerWS : Nat)
    (hk : 0 < maxPerWS)
    (hnd : (GroupRegistry.newIdsOf reg ids).Nodup)
    (hgnd : (reg.groups.map (fun g => g.groupId)).Nodup)
    (hwf : ∀ g ∈ reg.groups, g.groupId < reg.nextId) :
    (GroupRegistry.newIdsOf reg ids = [] →
        GroupRegistry.addAssets reg ids maxPerWS = (reg, []))
  ∧ (∀ gid,
      GroupRegistry.findGroupWithCapacity reg.groups
          (GroupRegistry.newIdsOf reg ids).length maxPerWS = some gid →
      GroupRegistry.newIdsOf reg ids ≠ [] →
      ∃ g ∈ reg.groups, g.groupId = gid
        ∧ g.assetIds.card ≠ 0
        ∧ g.assetIds.card + (GroupRegistry.newIdsOf reg ids).length ≤ maxPerWS
        ∧ (GroupRegistry.addAssets reg ids maxPerWS).1.groups
            = reg.groups.map (fun h =>
                if h.groupId = gid then
                  { h with assetIds := ∅, status := WebSocketStatus.cleanup }
                else h)
              ++ [⟨reg.nextId, g.assetIds ∪ (GroupRegistry.newIdsOf reg ids).toFinset,
                   false, WebSocketStatus.pending⟩]
        ∧ (GroupRegistry.addAssets reg ids maxPerWS).2 = [reg.nextId]
        ∧ reg.nextId ∉ reg.groups.map (fun h => h.groupId))
  ∧ (GroupRegistry.findGroupWithCapacity reg.groups
        (GroupRegistry.newIdsOf reg ids).length maxPerWS = none →
      GroupRegistry.newIdsOf reg ids ≠ [] →
      (GroupRegistry.addAssets reg ids maxPerWS).1.groups
          = reg.groups ++ GroupRegistry.createdGroups reg ids maxPerWS
      ∧ (GroupRegistry.addAssets reg ids maxPerWS).2
          = (GroupRegistry.createdGroups reg ids maxPerWS).map (fun g => g.groupId)
      ∧ (GroupRegistry.createdGroups reg ids maxPerWS).length
          = ((GroupRegistry.newIdsOf reg ids).length + maxPerWS - 1) / maxPerWS
      ∧ (∀ g ∈ GroupRegistry.createdGroups reg ids maxPerWS,
          g.status = WebSocketStatus.pending
          ∧ g.assetIds.card ≤ maxPerWS
          ∧ g.groupId ∉ reg.groups.map (fun h => h.groupId))
      ∧ List.Pairwise (fun g h => Disjoint g.assetIds h.assetIds)
          (GroupRegistry.createdGroups reg ids maxPerWS)
      ∧ (∀ a, a ∈ GroupRegistry.newIdsOf reg ids ↔
          ∃ g ∈ GroupRegistry.createdGroups reg ids maxPerWS, a ∈ g.assetIds)) := by
  have hfresh : reg.nextId ∉ reg.groups.map (fun h => h.groupId) := by
    intro hmem
    obtain ⟨h, hh, hid⟩ := List.mem_map.mp hmem
    exact absurd hid (Nat.ne_of_lt (hwf h hh))
  refine ⟨?_, ?_, ?_⟩
  · intro hempty
    unfold GroupRegistry.addAssets
    simp only [hempty, List.isEmpty_nil, if_pos]
  · intro gid hfind hne
    obtain ⟨g, hgmem, hgid, hc1, hc2⟩ :=
      GroupRegistry.findGroupWithCapacity_some reg.groups _ maxPerWS gid hfind
    have hfid : reg.groups.find? (fun h => h.groupId == gid) = some g := by
      rw [← hgid]
      exact GroupRegistry.find_by_id_of_nodup reg.groups hgnd g hgmem
    have hrun : GroupRegistry.addAssets reg ids maxPerWS =
        (⟨GroupRegistry.markCleanupFirst reg.groups gid ++
            [⟨reg.nextId, g.assetIds ∪ (GroupRegistry.newIdsOf reg ids).toFinset,
              false, WebSocketStatus.pending⟩],
          reg.nextId + 1⟩,
         [reg.nextId]) := by
      unfold GroupRegistry.addAssets
      rw [if_neg (by simp [List.isEmpty_iff, hne])]
      rw [hfind]
      simp only [hfid]
    refine ⟨g, hgmem, hgid, hc1, hc2, ?_, by rw [hrun], hfresh⟩
    rw [hrun, GroupRegistry.markCleanupFirst_eq_map reg.groups hgnd gid g hgmem hgid]
  · intro hfind hne
    have hrun : GroupRegistry.addAssets reg ids maxPerWS =
        (⟨reg.groups ++ GroupRegistry.createdGroups reg ids maxPerWS,
          reg.nextId + (GroupRegistry.createdGroups reg ids maxPerWS).length⟩,
         (GroupRegistry.createdGroups reg ids maxPerWS).map (fun g => g.groupId)) := by
      unfold GroupRegistry.addAssets GroupRegistry.createdGroups
      rw [if_neg (by simp [List.isEmpty_iff, hne])]
      rw [hfind]
    have hchunknd : List.Pairwise List.Disjoint
        (GroupRegistry.chunkList maxPerWS (GroupRegistry.newIdsOf reg ids)) := by
      have hfl := GroupRegistry.chunkList_flatten maxPerWS
        (GroupRegistry.newIdsOf reg ids) hk
      have : (GroupRegistry.chunkList maxPerWS
          (GroupRegistry.newIdsOf reg ids)).flatten.Nodup := by rw [hfl]; exact hnd
      exact (List.nodup_flatten.mp this).2
    refine ⟨by rw [hrun], by rw [hrun], ?_, ?_, ?_, ?_⟩
    · unfold GroupRegistry.createdGroups
      rw [GroupRegistry.mkGroups_length,
        GroupRegistry.chunkList_count maxPerWS (GroupRegistry.newIdsOf reg ids) hk]
    · intro g hg
      obtain ⟨h1, _, h3, _, ch, hch, h5⟩ :=
        GroupRegistry.mem_mkGroups reg.nextId _ g hg
      refine ⟨h1, ?_, ?_⟩
      · rw [h5]
        exact le_trans (List.toFinset_card_le ch)
          (GroupRegistry.chunkList_sizes maxPerWS _ hk ch hch)
      · intro hmem
        obtain ⟨h, hh, hid⟩ := List.mem_map.mp hmem
        have := hwf h hh
        omega
    · exact GroupRegistry.mkGroups_pairwise_disjoint reg.nextId _ hchunknd
    · intro a
      constructor
      · intro ha
        have : a ∈ (GroupRegistry.chunkList maxPerWS
            (GroupRegistry.newIdsOf reg ids)).flatten := by
          rw [GroupRegistry.chunkList_flatten maxPerWS _ hk]
          exact ha
        obtain ⟨ch, hch, hach⟩ := List.mem_flatten.mp this
        obtain ⟨g, hg, he⟩ := GroupRegistry.mkGroups_of_chunk reg.nextId _ ch hch
        exact ⟨g, hg, by rw [he]; exact List.mem_toFinset.mpr hach⟩
      · rintro ⟨g, hg, hag⟩
        obtain ⟨_, _, _, _, ch, hch, h5⟩ :=
          GroupRegistry.mem_mkGroups reg.nextId _ g hg
        rw [h5] at hag
        have hach := List.mem_toFinset.mp hag
        have : a ∈ (GroupRegistry.chunkList maxPerWS
            (GroupRegistry.newIdsOf reg ids)).flatten :=
          List.mem_flatten.mpr ⟨ch, hch, hach⟩
        rwa [GroupRegistry.chunkList_flatten maxPerWS _ hk] at this

def c4xreg : GroupRegistryState := ⟨[], 0⟩

/-- Counterexample to C4 as stated: calling addAssets with the duplicate input
a, b, a and capacity 2 on an empty registry creates two groups that both
contain a, so the union of the created groups' memberships does not hold each
new id exactly once. -/
theorem addAssets_duplicate_input_double_membership :
    ((GroupRegistry.addAssets c4xreg [ "a", "b", "a" ] 2).1.groups.filter
        (fun g => decide ( "a" ∈ g.assetIds))).length = 2 := by
  simp [GroupRegistry.addAssets, GroupRegistry.newIdsOf,
    GroupRegistry.findGroupWithCapacity, GroupRegistry.chunkList,
    GroupRegistry.mkGroups, c4xreg]

def c4wreg : GroupRegistryState := ⟨[⟨0, { "x" }, false, WebSocketStatus.alive⟩], 1⟩

/-- Witness for C4 (amended) in the capacity-reuse branch: one existing group
with room absorbs the new id into a freshly created PENDING group. -/
theorem addAssets_spec_amended_witness :
    (0 < 5 ∧ (GroupRegistry.newIdsOf c4wreg [ "y" ]).Nodup
      ∧ GroupRegistry.findGroupWithCapacity c4wreg.groups
          (GroupRegistry.newIdsOf c4wreg [ "y" ]).length 5 = some 0
      ∧ GroupRegistry.newIdsOf c4wreg [ "y" ] ≠ [])
  ∧ (∃ g ∈ c4wreg.groups, g.groupId = 0
      ∧ g.assetIds.card ≠ 0
      ∧ g.assetIds.card + (GroupRegistry.newIdsOf c4wreg [ "y" ]).length ≤ 5
      ∧ (GroupRegistry.addAssets c4wreg [ "y" ] 5).1.groups
          = c4wreg.groups.map (fun h =>
              if h.groupId = 0 then
                { h with assetIds := ∅, status := WebSocketStatus.cleanup }
              else h)
            ++ [⟨c4wreg.nextId,
                 g.assetIds ∪ (GroupRegistry.newIdsOf c4wreg [ "y" ]).toFinset,
                 false, WebSocketStatus.pending⟩]
      ∧ (GroupRegistry.addAssets c4wreg [ "y" ] 5).2 = [c4wreg.nextId]
      ∧ c4wreg.nextId ∉ c4wreg.groups.map (fun h => h.groupId)) := by
  have h := addAssets_spec_amended c4wreg [ "y" ] 5 (by decide) (by decide)
    (by decide) (by decide)
  exact ⟨⟨by decide, by decide, by decide, by decide⟩, h.2.1 0 (by decide) (by decide)⟩
